import Mathlib

/-!
Verification model of the CIBC statement text-to-record extraction engine
(`src/parsing/cibc_pdf_parser.py`).

Strings are modelled as `List Char` (`Str`).  Python `re` patterns are
modelled by explicit backtracking matchers that enumerate the engine's
alternatives in the engine's preference order (leftmost match, greedy /
non-greedy quantifier order, alternation order).  Whitespace and digit
classes are modelled over ASCII, which covers all characters the parser's
inputs and constants use.  Monetary amounts are modelled as exact integer
cents (the source's `float` is exact on the 0-2 fractional-digit tokens the
row grammar admits, up to float rounding which no claim depends on).
-/

abbrev Str := List Char

/-- Chars of a string literal. -/
def strL (s : String) : Str := s.data

/-- ASCII model of Python's whitespace class (`str.split`, regex `\s`). -/
def isWSChar (c : Char) : Bool :=
  c = ' ' || c = '\t' || c = '\n' || c = '\r' || c = Char.ofNat 11 || c = Char.ofNat 12

/-- ASCII decimal digit (regex `\d`). -/
def isDigitChar (c : Char) : Bool := 48 ≤ c.toNat && c.toNat ≤ 57

/-- Uppercase ASCII letter (regex class `[A-Z]`). -/
def isUpperAZ (c : Char) : Bool := 65 ≤ c.toNat && c.toNat ≤ 90

/-- Line-boundary characters of Python `str.splitlines` (ASCII/Latin range
plus the two Unicode separators). -/
def isLB (c : Char) : Bool :=
  c = '\n' || c = '\r' || c = Char.ofNat 11 || c = Char.ofNat 12 ||
  c = Char.ofNat 28 || c = Char.ofNat 29 || c = Char.ofNat 30 ||
  c = Char.ofNat 133 || c = Char.ofNat 8232 || c = Char.ofNat 8233

/-- `startsWithL p s` : `p` is a prefix of `s` (Python `str.startswith`). -/
def startsWithL : Str → Str → Bool
  | [], _ => true
  | _ :: _, [] => false
  | p :: ps, c :: cs => if p = c then startsWithL ps cs else false

/-- `endsWithL suf s` : `suf` is a suffix of `s` (Python `str.endswith`). -/
def endsWithL (suf s : Str) : Bool := startsWithL suf.reverse s.reverse

/-- `containsSub pat s` : `pat` occurs as a contiguous substring of `s`
(Python `pat in s`). -/
def containsSub (pat : Str) : Str → Bool
  | [] => startsWithL pat []
  | c :: cs => startsWithL pat (c :: cs) || containsSub pat cs

/-- Length of the longest prefix whose chars satisfy `p`. -/
def leadingCount (p : Char → Bool) : Str → Nat
  | [] => 0
  | c :: cs => if p c then leadingCount p cs + 1 else 0

/-- Python `str.split()` (split on whitespace runs, no empty fields). -/
def splitWSAux : Str → Str → List Str
  | [], acc => if acc.isEmpty then [] else [acc.reverse]
  | c :: cs, acc =>
    if isWSChar c then
      if acc.isEmpty then splitWSAux cs [] else acc.reverse :: splitWSAux cs []
    else splitWSAux cs (c :: acc)

def splitWS (s : Str) : List Str := splitWSAux s []

/-- `" ".join ws` -/
def joinSpace : List Str → Str
  | [] => []
  | [w] => w
  | w :: ws => w ++ ' ' :: joinSpace ws

/-- `" ".join(s.split())` — the line normalization used by the scanner. -/
def normWS (s : Str) : Str := joinSpace (splitWS s)

/-- Python `str.rstrip()` (whitespace). -/
def rstripWS : Str → Str
  | [] => []
  | c :: cs =>
    let r := rstripWS cs
    if r.isEmpty && isWSChar c then [] else c :: r

/-- Python `str.strip()` (whitespace). -/
def stripWS (s : Str) : Str := rstripWS (s.dropWhile isWSChar)

/-- Python `str.splitlines()` over the modelled line-boundary set
(`\r\n` counts as a single boundary). -/
def splitlinesAux : Str → Str → List Str
  | [], acc => if acc.isEmpty then [] else [acc.reverse]
  | c :: cs, acc =>
    if c = '\r' then
      match cs with
      | c2 :: cs2 =>
        if c2 = '\n' then acc.reverse :: splitlinesAux cs2 []
        else acc.reverse :: splitlinesAux (c2 :: cs2) []
      | [] => [acc.reverse]
    else if isLB c then acc.reverse :: splitlinesAux cs []
    else splitlinesAux cs (c :: acc)

def splitlines (s : Str) : List Str := splitlinesAux s []

/-- Python `str.upper()` (ASCII model). -/
def upperStr (s : Str) : Str := s.map Char.toUpper

/-- `_letters_only` (line 148): `re.sub(r"[^A-Z]", "", s.upper())`. -/
def lettersOnly (s : Str) : Str := (upperStr s).filter isUpperAZ

/-- Python `str.capitalize()`: first char uppercased, rest lowercased. -/
def capitalizeWord : Str → Str
  | [] => []
  | c :: cs => c.toUpper :: cs.map Char.toLower

/-- Python `str.replace(pat, rep)` — all non-overlapping occurrences,
left to right (`pat` nonempty in all uses).  The `fuel` argument (always
at least the string's length) only makes the recursion structural, so
that the kernel can evaluate the function. -/
def replaceAllFuel (pat rep : Str) : Nat → Str → Str
  | 0, s => s
  | _ + 1, [] => []
  | fuel + 1, c :: cs =>
    if startsWithL pat (c :: cs) && !pat.isEmpty then
      rep ++ replaceAllFuel pat rep fuel (cs.drop (pat.length - 1))
    else c :: replaceAllFuel pat rep fuel cs

def replaceAll (pat rep : Str) (s : Str) : Str := replaceAllFuel pat rep s.length s

/-- Digits to the number they denote (`int` on an all-digit string). -/
def strToNat (s : Str) : Nat := s.foldl (fun acc c => acc * 10 + (c.toNat - 48)) 0

/- =========================
   Constants (lines 21-69 of the source)
   ========================= -/

def KNOWN_CATEGORIES : List Str :=
  [ strL "Personal and Household Expenses",
    strL "Professional and Financial Services",
    strL "Retail and Grocery",
    strL "Transportation",
    strL "Hotel, Entertainment and Recreation",
    strL "Restaurants",
    strL "Health and Education",
    strL "Foreign Currency Transactions",
    strL "Other Transactions" ]

/-- Province codes in the order they appear in every regex alternation. -/
def PROVINCES_ORDER : List Str :=
  [ strL "ON", strL "QC", strL "BC", strL "AB", strL "MB", strL "SK",
    strL "NB", strL "NS", strL "NL", strL "PE", strL "YT", strL "NT", strL "NU" ]

def CITY_PATTERNS : List Str :=
  [ strL "NIAGARA FALLS", strL "RICHMOND HILL", strL "STONEY CREEK",
    strL "MISSISSAUGA", strL "ETOBICOKE", strL "WOODBRIDGE", strL "DESERONTO",
    strL "BRAMPTON", strL "OTTAWA", strL "NEPEAN", strL "TORONTO", strL "MARKHAM",
    strL "KANATA", strL "ORLEANS",
    strL "SAINT GABRIEL", strL "MONTREAL", strL "WAKEFIELD",
    strL "CALGARY",
    strL "HALIFAX",
    strL "FREDERICTON" ]

/-- Stable insertion sort by length, descending (`sorted(key=len, reverse=True)`). -/
def insertByLenDesc (x : Str) : List Str → List Str
  | [] => [x]
  | y :: ys => if y.length < x.length then x :: y :: ys else y :: insertByLenDesc x ys

def sortByLenDesc (l : List Str) : List Str :=
  l.foldl (fun acc x => insertByLenDesc x acc) []

def CITY_PATTERNS_SORTED : List Str := sortByLenDesc CITY_PATTERNS

def CITY_PATTERNS_NOSPACE : List Str := CITY_PATTERNS_SORTED.map (List.filter (· ≠ ' '))

def PAYMENTS_START : Str := strL "Your payments"
def PAYMENTS_TOTAL_PREFIX : Str := strL "Total payments $"
def CHARGES_START : Str := strL "Your new charges and credits"
def TOTAL_FOR_PREFIX : Str := strL "Total for"
def CARD_NUMBER_PREFIX : Str := strL "Card number"

/-- The twelve month abbreviations of `MONTH_3`, in alternation order. -/
def MONTHS : List Str :=
  [ strL "Jan", strL "Feb", strL "Mar", strL "Apr", strL "May", strL "Jun",
    strL "Jul", strL "Aug", strL "Sep", strL "Oct", strL "Nov", strL "Dec" ]

/- =========================
   ROW_RE (lines 62-69):
   ^(?P<tdate>DATE)\s+(?P<pdate>DATE)\s+(?P<body>.+?)\s+(?P<amount>AMOUNT)$
   with DATE = (Jan|...|Dec)\s+\d{1,2} and AMOUNT = -?\d[\d,]*\.?\d{0,2}.
   Each component matcher returns the list of possible remaining suffixes in
   the regex engine's preference order; `List.findSome?` chains them, which
   is exactly leftmost-preference backtracking.
   ========================= -/

/-- `\s+`, greedy: longest-first list of remainders (empty list if no
leading whitespace). -/
def wsAltsGreedy (s : Str) : List Str :=
  let k := leadingCount isWSChar s
  (List.range k).map (fun i => s.drop (k - i))

/-- `(Jan|...|Dec)`: at most one three-letter alternative can match. -/
def monthAlts (s : Str) : List Str :=
  match MONTHS.find? (fun m => startsWithL m s) with
  | some _ => [s.drop 3]
  | none => []

/-- `\d{1,2}`, greedy: two digits preferred over one. -/
def digit12Alts (s : Str) : List Str :=
  match s with
  | d1 :: d2 :: rest =>
    if isDigitChar d1 then
      if isDigitChar d2 then [rest, d2 :: rest] else [d2 :: rest]
    else []
  | [d1] => if isDigitChar d1 then [[]] else []
  | [] => []

/-- `DATE_RE = (Jan|...|Dec)\s+\d{1,2}`. -/
def dateAlts (s : Str) : List Str :=
  (monthAlts s).flatMap (fun r1 => (wsAltsGreedy r1).flatMap digit12Alts)

/-- `.+?` (non-greedy, `.` excludes newline): shortest-first remainders. -/
def bodyAlts (s : Str) : List Str :=
  let k := leadingCount (fun c => !(c = '\n')) s
  (List.range k).map (fun i => s.drop (i + 1))

/-- `-?`, greedy: with the sign preferred when present. -/
def signAlts (s : Str) : List Str :=
  match s with
  | c :: rest => if c = '-' then [rest, c :: rest] else [c :: rest]
  | [] => [[]]

/-- the mandatory first `\d` of AMOUNT. -/
def firstDigitAlts (s : Str) : List Str :=
  match s with
  | c :: rest => if isDigitChar c then [rest] else []
  | [] => []

/-- The char class `[\d,]`. -/
def digitComma (c : Char) : Bool := isDigitChar c || c = ','

/-- `[\d,]*`, greedy: longest-first (down to zero chars). -/
def digitCommaStarAlts (s : Str) : List Str :=
  let k := leadingCount digitComma s
  (List.range (k + 1)).map (fun i => s.drop (k - i))

/-- `\.?`, greedy. -/
def dotAlts (s : Str) : List Str :=
  match s with
  | c :: rest => if c = '.' then [rest, c :: rest] else [c :: rest]
  | [] => [[]]

/-- `\d{0,2}`, greedy: two, one, then zero digits. -/
def frac02Alts (s : Str) : List Str :=
  match s with
  | d1 :: d2 :: rest =>
    if isDigitChar d1 then
      if isDigitChar d2 then [rest, d2 :: rest, d1 :: d2 :: rest]
      else [d2 :: rest, d1 :: d2 :: rest]
    else [d1 :: d2 :: rest]
  | [d1] => if isDigitChar d1 then [[], [d1]] else [[d1]]
  | [] => [[]]

/-- `AMOUNT_RE = -?\d[\d,]*\.?\d{0,2}`. -/
def amountAlts (s : Str) : List Str :=
  (signAlts s).flatMap (fun r1 =>
  (firstDigitAlts r1).flatMap (fun r2 =>
  (digitCommaStarAlts r2).flatMap (fun r3 =>
  (dotAlts r3).flatMap frac02Alts)))

/-- `$` (no MULTILINE): end of string, or just before a final newline. -/
def endAnchor (s : Str) : Bool := s.isEmpty || s = ['\n']

/-- `ROW_RE.match(line)`: on success, the four captures
`(tdate, pdate, body, amount)`. -/
def rowMatch (s : Str) : Option (Str × Str × Str × Str) :=
  (dateAlts s).findSome? fun r1 =>
  (wsAltsGreedy r1).findSome? fun r2 =>
  (dateAlts r2).findSome? fun r3 =>
  (wsAltsGreedy r3).findSome? fun r4 =>
  (bodyAlts r4).findSome? fun r5 =>
  (wsAltsGreedy r5).findSome? fun r6 =>
  (amountAlts r6).findSome? fun r7 =>
  if endAnchor r7 then
    some (s.take (s.length - r1.length),
          r2.take (r2.length - r3.length),
          r4.take (r4.length - r5.length),
          r6.take (r6.length - r7.length))
  else none

/-- `t` matches `DATE_RE` exactly: a month abbreviation, a whitespace run,
and a 1-2 digit day. -/
def isDateTok (t : Str) : Bool :=
  match MONTHS.find? (fun m => startsWithL m t) with
  | some _ =>
    let r := t.drop 3
    let k := leadingCount isWSChar r
    let d := r.drop k
    decide (1 ≤ k) && (d.length == 1 || d.length == 2) && d.all isDigitChar
  | none => false

/-- `a` matches `AMOUNT_RE` exactly: optional sign, a digit, digits and
commas, then optionally a dot and at most two digits. -/
def isAmountTok (a : Str) : Bool :=
  let s := match a with
    | c :: r => if c = '-' then r else c :: r
    | [] => []
  match s with
  | c :: r =>
    isDigitChar c &&
      (match r.dropWhile digitComma with
       | [] => true
       | d :: f => d = '.' && f.all isDigitChar && decide (f.length ≤ 2))
  | [] => false

/-- a nonempty run of whitespace (`\s+`). -/
def isWSRun (w : Str) : Bool := !w.isEmpty && w.all isWSChar

/- =========================
   Date normalization (lines 110-132)
   ========================= -/

/-- A concrete calendar date (`datetime` restricted to its date part; the
parser never uses times). -/
structure NDate where
  year : Nat
  month : Nat
  day : Nat
deriving DecidableEq, Repr

/-- The error raised out of `_normalize_date`.  The spec calls it
`DateParseError`; in the source it is the underlying `ValueError`, which
carries the offending token in its message.  `dayOutOfRange` models the
"day is out of range for month" message, `otherFormat` every other parse
failure. -/
inductive DateErr where
  | dayOutOfRange (tok : Str)
  | otherFormat (tok : Str)
deriving DecidableEq, Repr

/-- `strptime('%b').month` on the canonical three-letter abbreviations. -/
def monthNum (mon : Str) : Option Nat :=
  (MONTHS.findIdx? (fun m => m = mon)).map (· + 1)

def isLeap (y : Nat) : Bool := y % 4 = 0 && (y % 100 ≠ 0 || y % 400 = 0)

/-- `calendar.monthrange(year, month)[1]` — last day of the month. -/
def lastDay (year month : Nat) : Nat :=
  if month = 2 then (if isLeap year then 29 else 28)
  else if month = 4 || month = 6 || month = 9 || month = 11 then 30
  else 31

/-- Modelled from the external `dateutil.parser.parse` on the strings
`f"{dstr} {year}"` the parser builds: a token `"Mon D"` with a canonical
month abbreviation and a numeric day parses to that date when the day is
valid; a numeric day ≤ 31 that is not a valid day of the month raises
`ValueError("day is out of range for month")` (the `datetime` constructor
message); anything else raises a generic format `ValueError`. -/
def dtparseModel (dstr : Str) (year : Nat) : Except DateErr NDate :=
  match splitWS dstr with
  | [mon, ds] =>
    match monthNum mon with
    | some m =>
      if ds.all isDigitChar then
        let d := strToNat ds
        if 1 ≤ d && d ≤ lastDay year m then .ok ⟨year, m, d⟩
        else if d ≤ 31 then .error (.dayOutOfRange dstr)
        else .error (.otherFormat dstr)
      else .error (.otherFormat dstr)
    | none => .error (.otherFormat dstr)
  | _ => .error (.otherFormat dstr)

/-- `_normalize_date` (lines 110-132): parse, clamping a day that is out of
range for the month to the month's last day; re-raise any other failure. -/
def normalizeDate (dstr : Str) (year : Nat) : Except DateErr NDate :=
  match dtparseModel dstr year with
  | .ok d => .ok d
  | .error e =>
    match e with
    | .dayOutOfRange _ =>
      match splitWS dstr with
      | mon :: ds :: _ =>
        match monthNum mon with
        | some m =>
          if ds.all isDigitChar then
            let d := min (strToNat ds) (lastDay year m)
            if 1 ≤ d then .ok ⟨year, m, d⟩ else .error e
          else .error e
        | none => .error e
      | _ => .error e
    | .otherFormat _ => .error e

/- =========================
   Category extraction (lines 135-141)
   ========================= -/

/-- The loop body of `_find_category_and_desc`: first category in the
given order that is a suffix of the normalized body. -/
def findCatAux (bn : Str) : List Str → Str × Str
  | [] => ([], bn)
  | cat :: cats =>
    if endsWithL cat bn then (cat, rstripWS (bn.take (bn.length - cat.length)))
    else findCatAux bn cats

/-- `_find_category_and_desc` (lines 135-141). -/
def findCategoryAndDesc (body : Str) : Str × Str :=
  findCatAux (normWS body) (sortByLenDesc KNOWN_CATEGORIES)

/- =========================
   Location inference (lines 144-271)
   ========================= -/

/-- `_normalize_city` (lines 144-146). -/
def normalizeCity (s : Str) : Str :=
  joinSpace ((splitWS (normWS s)).map capitalizeWord)

/-- First province code (in alternation order) that matches `(PROV)\s*$`
at the head of `s`. -/
def provHere (s : Str) : Option Str :=
  PROVINCES_ORDER.find? (fun p => startsWithL p s && (s.drop 2).all isWSChar)

/-- `re.search` for `SEP(PROV)\s*$` where `SEP` is a one-char class:
leftmost position whose char satisfies `isSep` and is followed by a
trailing province code.  Returns the match start (the separator's index)
and the province. -/
def searchSepProv (isSep : Char → Bool) (i : Nat) : Str → Option (Nat × Str)
  | [] => none
  | c :: cs =>
    if isSep c then
      match provHere cs with
      | some p => some (i, p)
      | none => searchSepProv isSep (i + 1) cs
    else searchSepProv isSep (i + 1) cs

/-- `re.search` for `(PROV)\s*$`: leftmost trailing province code; the
match starts at the code itself. -/
def searchProvOnly (i : Nat) : Str → Option (Nat × Str)
  | [] => none
  | c :: cs =>
    match provHere (c :: cs) with
    | some p => some (i, p)
    | none => searchProvOnly (i + 1) cs

/-- The domain/brand markers of strategy 3 (line 172). -/
def DOMAIN_HINTS : List Str :=
  [ strL "WWW", strL "HTTP", strL "HTTPS", strL ".COM", strL ".CA", strL "/",
    strL "G.CO", strL "GOOGLE", strL "AMAZON", strL "UBER" ]

/-- Detection modes, as the strings the source uses. -/
def MODE_SPACE : Str := strL "space"
def MODE_HYPHEN : Str := strL "hyphen"
def MODE_DOMAIN : Str := strL "domain"
def MODE_GLUED : Str := strL "gluedcity"

/-- Strategy 4 (lines 180-192): a known city's letters-only form glued
directly onto a trailing province code. -/
def gluedCityProv (U : Str) : Option (Nat × Str × Str) :=
  PROVINCES_ORDER.findSome? fun prov =>
    if endsWithL prov U then
      let before := rstripWS (U.take (U.length - prov.length))
      if CITY_PATTERNS_NOSPACE.any (fun cns => endsWithL cns (lettersOnly before)) then
        some (before.length, prov, MODE_GLUED)
      else none
    else none

/-- `_detect_province_suffix` (lines 152-194): `(match-start, province,
mode)`, or `none` when no strategy fires.  The match start is all the
callers use of the match object (`m.start()`); for the glued-city
`_FakeMatch` it is `len(before)`. -/
def detectProvinceSuffix (U : Str) : Option (Nat × Str × Str) :=
  match searchSepProv isWSChar 0 U with
  | some (i, p) => some (i, p, MODE_SPACE)
  | none =>
  match searchSepProv (fun c => c = '-') 0 U with
  | some (i, p) => some (i, p, MODE_HYPHEN)
  | none =>
  if DOMAIN_HINTS.any (fun h => containsSub h U) then
    match searchProvOnly 0 U with
    | some (i, p) => some (i, p, MODE_DOMAIN)
    | none => gluedCityProv U
  else gluedCityProv U

/-- The de-glue prefixes of line 216, in alternation order (the optional
dot of `G\.?CO/HELPPAY` expanded greedily-first). -/
def DEGLUE_PREFIXES : List Str :=
  [ strL "HTTPSWWW", strL "HTTPS", strL "HTTP", strL "WWW",
    strL "G.CO/HELPPAY", strL "GCO/HELPPAY", strL "ONLINE" ]

def headIsUpper (s : Str) : Bool :=
  match s with
  | c :: _ => isUpperAZ c
  | [] => false

/-- `re.sub(r"(HTTPSWWW|...|ONLINE)(?=[A-Z])", " ", _)` (line 216):
leftmost non-overlapping replacement; the lookahead char stays.  The
`fuel` argument (always at least the string's length) only makes the
recursion structural, so that the kernel can evaluate the function. -/
def deGlueSubFuel : Nat → Str → Str
  | 0, s => s
  | _ + 1, [] => []
  | fuel + 1, c :: cs =>
    match DEGLUE_PREFIXES.find?
        (fun lit => startsWithL lit (c :: cs) && headIsUpper ((c :: cs).drop lit.length)) with
    | some lit => ' ' :: deGlueSubFuel fuel (cs.drop (lit.length - 1))
    | none => c :: deGlueSubFuel fuel cs

def deGlueSub (s : Str) : Str := deGlueSubFuel s.length s

/-- The `STOP` noise/brand set of lines 225-230. -/
def STOP_TOKENS : List Str :=
  [ strL "STORE", strL "SUPERCENTER", strL "AMAZON", strL "AMAZONCA", strL "WWW",
    strL "HTTPS", strL "HTTP", strL "UBER", strL "UBERCOM",
    strL "GOOGLE", strL "YOUTUBE", strL "G", strL "CO", strL "HELPPAY",
    strL "AIRBNB", strL "WESTJET", strL "INC", strL "LTD", strL "COMP",
    strL "COM", strL "ONLINE",
    strL "SUPERCENTEROTTAWA", strL "SUPERCENTERNEPEAN", strL "COMPMONTREAL",
    strL "INCTORONTO", strL "CKANATA",
    strL "AMAZONCAON", strL "UBERON", strL "HTTPSWWW" ]

def JOINERS : List Str := [ strL "CREEK", strL "FALLS", strL "HILL" ]

/-- `re.match(r"^[A-Z]+$", s)` as a predicate. -/
def allUpperMatch (s : Str) : Bool := !s.isEmpty && s.all isUpperAZ

/-- The branch of `pick_city_from_tokens` on the last token (lines 238-248). -/
def pickLastTok (lastTok : Str) : Str :=
  if !(STOP_TOKENS.contains lastTok) && allUpperMatch lastTok then
    if lastTok.length < 3 then []
    else
      match (CITY_PATTERNS_SORTED.zip CITY_PATTERNS_NOSPACE).find?
          (fun pq => endsWithL pq.2 lastTok || containsSub pq.1 lastTok) with
      | some pq => pq.1
      | none => lastTok
  else []

/-- `pick_city_from_tokens` (lines 233-249). -/
def pickCityFromTokens (toks : List Str) : Str :=
  match toks.reverse with
  | lastTok :: prev :: _ =>
    if JOINERS.contains lastTok && allUpperMatch prev then prev ++ ' ' :: lastTok
    else pickLastTok lastTok
  | [lastTok] => pickLastTok lastTok
  | [] => []

/-- `tail_raw` after the de-glue substitutions (lines 213-217). -/
def locTailRaw (U : Str) (start : Nat) : Str :=
  replaceAll (strL "AMAZON.CA") (strL "AMAZON CA")
    (replaceAll (strL "UBERCOM") (strL "UBER COM")
      (deGlueSub (rstripWS (U.take start))))

/-- `tail_alpha` (lines 220-221): alphabetic-only text, whitespace-joined. -/
def locTailAlpha (U : Str) (start : Nat) : Str :=
  normWS ((locTailRaw U start).map (fun c => if isUpperAZ c || isWSChar c then c else ' '))

/-- Line 252: the token heuristic, suppressed in domain mode. -/
def locCand0 (tailAlpha mode : Str) : Str :=
  if mode = MODE_DOMAIN then [] else pickCityFromTokens (splitWS tailAlpha)

/-- Lines 255-259: the gazetteer rescue scan over the alphabetic tail,
run when the token heuristic produced nothing or a stoplisted value. -/
def locCand1 (tailAlpha mode : Str) : Str :=
  let cand0 := locCand0 tailAlpha mode
  if cand0.isEmpty || STOP_TOKENS.contains cand0 then
    match CITY_PATTERNS_SORTED.find? (fun pat => containsSub pat tailAlpha) with
    | some pat => pat
    | none => cand0
  else cand0

/-- Lines 261-263: the NS/Halifax special case, completing the
city-candidate chain of `_extract_location`. -/
def locCand (U : Str) (start : Nat) (prov mode : Str) : Str :=
  let tailAlpha := locTailAlpha U start
  let cand1 := locCand1 tailAlpha mode
  if cand1.isEmpty && prov = strL "NS" && containsSub (strL "HALIFAX") tailAlpha then
    strL "HALIFAX"
  else cand1

/-- `_extract_location` (lines 197-271). -/
def extractLocation (desc : Str) : Str × Str × Str :=
  let U := stripWS (upperStr desc)
  match detectProvinceSuffix U with
  | none => ([], [], [])
  | some (start, prov, mode) =>
    let cand2 := locCand U start prov mode
    if !cand2.isEmpty && !(STOP_TOKENS.contains cand2) then
      let cityNorm := normalizeCity cand2
      (cityNorm ++ ' ' :: prov, cityNorm, prov)
    else ([], [], prov)

/- =========================
   Noise filter `_is_noise` (lines 274-288)
   ========================= -/

/-- `^Page \d+ of \d+$`. -/
def matchPageNofM (s : Str) : Bool :=
  if startsWithL (strL "Page ") s then
    let r := s.drop 5
    let d1 := leadingCount isDigitChar r
    if d1 = 0 then false
    else
      let r2 := r.drop d1
      if startsWithL (strL " of ") r2 then
        let r3 := r2.drop 4
        let d2 := leadingCount isDigitChar r3
        decide (0 < d2) && endAnchor (r3.drop d2)
      else false
  else false

/-- `^\*\d{7,}\*$` (the `*0502530000*` barcodes). -/
def matchStarBarcode (s : Str) : Bool :=
  match s with
  | c :: r =>
    c = '*' &&
      (let k := leadingCount isDigitChar r
       decide (7 ≤ k) &&
         (match r.drop k with
          | c2 :: rest2 => c2 = '*' && endAnchor rest2
          | [] => false))
  | [] => false

/-- `^-?\d{3}-\d{6,}$` (the `-188-036281` reference codes). -/
def matchDashRef (s : Str) : Bool :=
  let s1 := match s with
    | c :: r => if c = '-' then r else c :: r
    | [] => []
  match s1 with
  | a :: b :: c :: r =>
    isDigitChar a && isDigitChar b && isDigitChar c &&
      (match r with
       | h :: r2 =>
         h = '-' &&
           (let k := leadingCount isDigitChar r2
            decide (6 ≤ k) && endAnchor (r2.drop k))
       | [] => false)
  | _ => false

/-- `_is_noise` (lines 274-288). -/
def isNoise (line : Str) : Bool :=
  let s := stripWS line
  if s.isEmpty then true
  else if startsWithL CARD_NUMBER_PREFIX s then true
  else if startsWithL TOTAL_FOR_PREFIX s then true
  else if matchPageNofM s then true
  else if matchStarBarcode s then true
  else if matchDashRef s then true
  else false

/- =========================
   Data models (lines 76-95) and the Section Scanner / Statement Assembler
   (`_parse_pages_text`, lines 305-396)
   ========================= -/

/-- `PaymentRow` (lines 76-82); `amount` in exact cents. -/
structure PaymentRow where
  trans_date : NDate
  post_date : NDate
  description : Str
  amount : Int
  source : Str := strL "CIBC"
deriving DecidableEq, Repr

/-- `TransactionRow` (lines 85-95); `amount` in exact cents. -/
structure TransactionRow where
  trans_date : NDate
  post_date : NDate
  description : Str
  category : Str
  amount : Int
  location : Str := []
  city : Str := []
  province : Str := []
  source : Str := strL "CIBC"
deriving DecidableEq, Repr

/-- `float(m.group("amount").replace(",", ""))` in cents, exact on the
tokens `AMOUNT_RE` admits (sign, integer digits, 0-2 fractional digits). -/
def parseAmountCents (a : Str) : Int :=
  let s := a.filter (fun c => !(c = ','))
  let sgn : Int := match s with
    | c :: _ => if c = '-' then -1 else 1
    | [] => 1
  let s2 := match s with
    | c :: r => if c = '-' then r else c :: r
    | [] => []
  let ip := s2.takeWhile isDigitChar
  let rest := s2.dropWhile isDigitChar
  let frac := match rest with
    | c :: f => if c = '.' then f else []
    | [] => []
  let fracCents : Nat := match frac with
    | [] => 0
    | [d] => (d.toNat - 48) * 10
    | d :: e :: _ => (d.toNat - 48) * 10 + (e.toNat - 48)
  sgn * (strToNat ip * 100 + fracCents)

/-- The mutable scanner state of `_parse_pages_text`: the two section
flags and the two accumulated record lists. -/
structure ScanSt where
  inPayments : Bool
  inCharges : Bool
  payments : List PaymentRow
  txns : List TransactionRow
deriving DecidableEq, Repr

def initScanSt : ScanSt := ⟨false, false, [], []⟩

/-- One iteration of the inner loop of `_parse_pages_text`
(lines 314-364): section switching, noise filtering, row matching, and
record emission.  A date-normalization failure propagates as the error. -/
def processLine (year : Nat) (st : ScanSt) (rawLine : Str) : Except DateErr ScanSt :=
  let line := normWS rawLine
  if startsWithL PAYMENTS_START line then
    .ok { st with inPayments := true, inCharges := false }
  else if startsWithL CHARGES_START line then
    .ok { st with inCharges := true, inPayments := false }
  else if st.inPayments && startsWithL PAYMENTS_TOTAL_PREFIX line then
    .ok { st with inPayments := false }
  else if isNoise line then .ok st
  else
    match rowMatch line with
    | none => .ok st
    | some (tdateTok, pdateTok, body, amountTok) =>
      match normalizeDate tdateTok year with
      | .error e => .error e
      | .ok tdate =>
        match normalizeDate pdateTok year with
        | .error e => .error e
        | .ok pdate =>
          let amount := parseAmountCents amountTok
          if st.inPayments then
            .ok { st with payments := st.payments ++
                  [{ trans_date := tdate, post_date := pdate,
                     description := body, amount := amount }] }
          else if st.inCharges then
            let cd := findCategoryAndDesc body
            let lcp := extractLocation cd.2
            .ok { st with txns := st.txns ++
                  [{ trans_date := tdate, post_date := pdate,
                     description := cd.2, category := cd.1, amount := amount,
                     location := lcp.1, city := lcp.2.1, province := lcp.2.2 }] }
          else .ok st

/-- The inner loop over one page's lines. -/
def processLinesE (year : Nat) (st : ScanSt) : List Str → Except DateErr ScanSt
  | [] => .ok st
  | l :: ls =>
    match processLine year st l with
    | .ok st2 => processLinesE year st2 ls
    | .error e => .error e

/-- The outer loop over pages (the state persists across page breaks). -/
def processPagesE (year : Nat) (st : ScanSt) : List Str → Except DateErr ScanSt
  | [] => .ok st
  | pg :: pgs =>
    match processLinesE year st (splitlines pg) with
    | .ok st2 => processPagesE year st2 pgs
    | .error e => .error e

/-- `TRANSACTIONS_FROM_RE = "Transactions from .*? (\d{4})"`: after the
literal, the shortest newline-free gap followed by a space and four
digits.  Returns those four digits as a number. -/
def findGapYear : Str → Option Nat
  | [] => none
  | c :: cs =>
    if c = ' ' then
      match cs with
      | d1 :: d2 :: d3 :: d4 :: _ =>
        if isDigitChar d1 && isDigitChar d2 && isDigitChar d3 && isDigitChar d4 then
          some (strToNat [d1, d2, d3, d4])
        else findGapYear cs
      | _ => findGapYear cs
    else if c = '\n' then none
    else findGapYear cs

/-- `re.search(TRANSACTIONS_FROM_RE, t)`: leftmost occurrence of the
literal whose continuation completes a match. -/
def searchTransYear : Str → Option Nat
  | [] => none
  | c :: cs =>
    if startsWithL (strL "Transactions from ") (c :: cs) then
      match findGapYear ((c :: cs).drop 18) with
      | some y => some y
      | none => searchTransYear cs
    else searchTransYear cs

/-- `_extract_year` (lines 102-107); `nowYear` models the
`datetime.now().year` fallback. -/
def extractYear (nowYear : Nat) (pages : List Str) : Nat :=
  match pages.findSome? searchTransYear with
  | some y => y
  | none => nowYear

/-- `_parse_pages_text` (lines 305-396) up to the two record lists.  The
trailing DataFrame construction only re-types the same fields (dates,
numeric amounts) and re-normalizes description whitespace, which is the
identity on the already-normalized record fields, so the record lists are
the faithful observable output. -/
def parsePagesText (nowYear : Nat) (pages : List Str) :
    Except DateErr (List PaymentRow × List TransactionRow) :=
  let year := extractYear nowYear pages
  match processPagesE year initScanSt pages with
  | .ok st => .ok (st.payments, st.txns)
  | .error e => .error e

/- =========================
   Generic helper lemmas
   ========================= -/

theorem startsWithL_iff (p s : Str) : startsWithL p s = true ↔ ∃ r, s = p ++ r := by
  induction p generalizing s with
  | nil => simp [startsWithL]
  | cons a ps ih =>
    cases s with
    | nil =>
      simp only [startsWithL, List.cons_append]
      constructor
      · intro h; cases h
      · rintro ⟨r, hr⟩; cases hr
    | cons c cs =>
      simp only [startsWithL, List.cons_append]
      constructor
      · intro h
        split at h
        · next heq =>
          obtain ⟨r, rfl⟩ := (ih cs).mp h
          exact ⟨r, by rw [heq]⟩
        · cases h
      · rintro ⟨r, hr⟩
        injection hr with h1 h2
        rw [if_pos h1.symm]
        exact (ih cs).mpr ⟨r, h2⟩

theorem startsWithL_append_self (p r : Str) : startsWithL p (p ++ r) = true :=
  (startsWithL_iff p (p ++ r)).mpr ⟨r, rfl⟩

theorem eq_append_drop_of_startsWith {p s : Str} (h : startsWithL p s = true) :
    s = p ++ s.drop p.length := by
  obtain ⟨r, rfl⟩ := (startsWithL_iff p s).mp h
  rw [List.drop_left]

theorem take_sub_of_append (x y : Str) :
    (x ++ y).take ((x ++ y).length - y.length) = x := by
  have h : (x ++ y).length - y.length = x.length := by
    rw [List.length_append]; omega
  rw [h, List.take_left]

theorem leadingCount_append_all (p : Char → Bool) (w r : Str) (hw : w.all p = true) :
    leadingCount p (w ++ r) = w.length + leadingCount p r := by
  induction w with
  | nil => simp
  | cons c cs ih =>
    rw [List.all_cons, Bool.and_eq_true] at hw
    rw [List.cons_append, leadingCount, if_pos hw.1, ih hw.2, List.length_cons]
    omega

theorem all_take_leadingCount (p : Char → Bool) (s : Str) (j : Nat)
    (hj : j ≤ leadingCount p s) : (s.take j).all p = true := by
  induction s generalizing j with
  | nil => simp
  | cons c cs ih =>
    cases j with
    | zero => simp
    | succ j2 =>
      rw [leadingCount] at hj
      split at hj
      · next hp =>
        rw [List.take_succ_cons, List.all_cons, Bool.and_eq_true]
        exact ⟨hp, ih j2 (by omega)⟩
      · omega

theorem mem_dropRange_rev_iff (s : Str) (k : Nat) (r : Str) :
    (r ∈ (List.range k).map (fun i => s.drop (k - i))) ↔
      ∃ j, 1 ≤ j ∧ j ≤ k ∧ r = s.drop j := by
  simp only [List.mem_map, List.mem_range]
  constructor
  · rintro ⟨i, hi, rfl⟩; exact ⟨k - i, by omega, by omega, rfl⟩
  · rintro ⟨j, h1, h2, rfl⟩
    refine ⟨k - j, by omega, ?_⟩
    rw [Nat.sub_sub_self h2]

theorem mem_dropRange_fwd_iff (s : Str) (k : Nat) (r : Str) :
    (r ∈ (List.range k).map (fun i => s.drop (i + 1))) ↔
      ∃ j, 1 ≤ j ∧ j ≤ k ∧ r = s.drop j := by
  simp only [List.mem_map, List.mem_range]
  constructor
  · rintro ⟨i, hi, rfl⟩; exact ⟨i + 1, by omega, by omega, rfl⟩
  · rintro ⟨j, h1, h2, rfl⟩
    refine ⟨j - 1, by omega, ?_⟩
    have : j - 1 + 1 = j := by omega
    rw [this]

theorem mem_dropRange0_iff (s : Str) (k : Nat) (r : Str) :
    (r ∈ (List.range (k + 1)).map (fun i => s.drop (k - i))) ↔
      ∃ j, j ≤ k ∧ r = s.drop j := by
  simp only [List.mem_map, List.mem_range]
  constructor
  · rintro ⟨i, hi, rfl⟩; exact ⟨k - i, by omega, rfl⟩
  · rintro ⟨j, h2, rfl⟩
    refine ⟨k - j, by omega, ?_⟩
    rw [Nat.sub_sub_self h2]

theorem findSome?_ex {α β : Type} (f : α → Option β) (l : List α) (b : β)
    (h : l.findSome? f = some b) : ∃ a ∈ l, f a = some b := by
  induction l with
  | nil => simp [List.findSome?_nil] at h
  | cons x xs ih =>
    rw [List.findSome?_cons] at h
    cases hx : f x with
    | some y =>
      rw [hx] at h
      exact ⟨x, List.mem_cons_self x xs, by rw [hx]; exact h⟩
    | none =>
      rw [hx] at h
      obtain ⟨a, ha, hfa⟩ := ih h
      exact ⟨a, List.mem_cons_of_mem x ha, hfa⟩

theorem findSome?_isSome_of {α β : Type} (f : α → Option β) (l : List α) (a : α)
    (ha : a ∈ l) (hf : (f a).isSome) : (l.findSome? f).isSome := by
  induction l with
  | nil => cases ha
  | cons x xs ih =>
    rw [List.findSome?_cons]
    cases hx : f x with
    | some y => simp
    | none =>
      cases List.mem_cons.mp ha with
      | inl h =>
        rw [h, hx] at hf
        simp at hf
      | inr h => exact ih h

/- =========================
   Component lemmas for ROW_RE
   ========================= -/

theorem months_length3 : ∀ m ∈ MONTHS, m.length = 3 := by decide

theorem digit_not_ws (c : Char) (h : isDigitChar c = true) : isWSChar c = false := by
  rw [isDigitChar] at h
  rw [isWSChar]
  rw [Bool.and_eq_true, decide_eq_true_eq, decide_eq_true_eq] at h
  have h11 : c ≠ Char.ofNat 11 := by
    intro hc; rw [hc] at h; simp [Char.ofNat] at h
  have h12 : c ≠ Char.ofNat 12 := by
    intro hc; rw [hc] at h; simp [Char.ofNat] at h
  have hsp : c ≠ ' ' := by intro hc; rw [hc] at h; simp at h
  have hta : c ≠ '\t' := by intro hc; rw [hc] at h; simp at h
  have hnl : c ≠ '\n' := by intro hc; rw [hc] at h; simp at h
  have hcr : c ≠ '\r' := by intro hc; rw [hc] at h; simp at h
  simp [hsp, hta, hnl, hcr, h11, h12]

theorem wsAltsGreedy_iff (s r : Str) :
    r ∈ wsAltsGreedy s ↔ ∃ j, 1 ≤ j ∧ j ≤ leadingCount isWSChar s ∧ r = s.drop j := by
  rw [wsAltsGreedy]
  exact mem_dropRange_rev_iff s (leadingCount isWSChar s) r

theorem bodyAlts_iff (s r : Str) :
    r ∈ bodyAlts s ↔
      ∃ j, 1 ≤ j ∧ j ≤ leadingCount (fun c => !(c = '\n')) s ∧ r = s.drop j := by
  rw [bodyAlts]
  exact mem_dropRange_fwd_iff s (leadingCount (fun c => !(c = '\n')) s) r

theorem ne_nil_isEmpty_false {α : Type} {l : List α} (h : l ≠ []) : l.isEmpty = false := by
  cases l with
  | nil => exact absurd rfl h
  | cons a t => rfl

theorem leadingCount_le_length (p : Char → Bool) (s : Str) :
    leadingCount p s ≤ s.length := by
  induction s with
  | nil => simp [leadingCount]
  | cons c cs ih =>
    rw [leadingCount]
    split
    · simpa using ih
    · simp

theorem take_ne_nil_of_pos (s : Str) (j : Nat) (h1 : 1 ≤ j) (hlen : j ≤ s.length) :
    s.take j ≠ [] := by
  intro ht
  have : (s.take j).length = j := by rw [List.length_take]; omega
  rw [ht] at this
  simp at this
  omega

theorem wsAltsGreedy_sound {s r : Str} (h : r ∈ wsAltsGreedy s) :
    ∃ w, s = w ++ r ∧ isWSRun w = true := by
  obtain ⟨j, h1, h2, rfl⟩ := (wsAltsGreedy_iff s _).mp h
  refine ⟨s.take j, (List.take_append_drop j s).symm, ?_⟩
  rw [isWSRun, Bool.and_eq_true]
  constructor
  · rw [Bool.not_eq_true']
    exact ne_nil_isEmpty_false
      (take_ne_nil_of_pos s j h1 (le_trans h2 (leadingCount_le_length _ s)))
  · exact all_take_leadingCount isWSChar s j h2

theorem wsAltsGreedy_mem (w rest : Str) (hw : isWSRun w = true) :
    rest ∈ wsAltsGreedy (w ++ rest) := by
  rw [isWSRun, Bool.and_eq_true, Bool.not_eq_true', List.isEmpty_eq_false_iff_exists_mem] at hw
  rw [wsAltsGreedy_iff]
  refine ⟨w.length, ?_, ?_, (List.drop_left w rest).symm⟩
  · obtain ⟨x, hx⟩ := hw.1
    cases w with
    | nil => cases hx
    | cons a l => simp
  · rw [leadingCount_append_all isWSChar w rest hw.2]; omega

theorem bodyAlts_sound {s r : Str} (h : r ∈ bodyAlts s) :
    ∃ b, s = b ++ r ∧ b ≠ [] ∧ b.all (fun c => !(c = '\n')) = true := by
  obtain ⟨j, h1, h2, rfl⟩ := (bodyAlts_iff s _).mp h
  refine ⟨s.take j, (List.take_append_drop j s).symm, ?_, ?_⟩
  · exact take_ne_nil_of_pos s j h1 (le_trans h2 (leadingCount_le_length _ s))
  · exact all_take_leadingCount _ s j h2

theorem bodyAlts_mem (b rest : Str) (hb : b ≠ [])
    (hnl : b.all (fun c => !(c = '\n')) = true) : rest ∈ bodyAlts (b ++ rest) := by
  rw [bodyAlts_iff]
  refine ⟨b.length, ?_, ?_, (List.drop_left b rest).symm⟩
  · cases b with
    | nil => exact absurd rfl hb
    | cons a l => simp
  · rw [leadingCount_append_all _ b rest hnl]; omega

theorem digit12Alts_sound {s r : Str} (h : r ∈ digit12Alts s) :
    ∃ d, s = d ++ r ∧ d.all isDigitChar = true ∧ (d.length = 1 ∨ d.length = 2) := by
  match s with
  | [] => simp [digit12Alts] at h
  | [d1] =>
    rw [digit12Alts] at h
    split at h
    · next h1 =>
      rw [List.mem_singleton] at h
      subst h
      exact ⟨[d1], rfl, by simp [h1], Or.inl rfl⟩
    · simp at h
  | d1 :: d2 :: rest =>
    rw [digit12Alts] at h
    split at h
    · next h1 =>
      split at h
      · next h2 =>
        rw [List.mem_cons, List.mem_singleton] at h
        cases h with
        | inl h => subst h; exact ⟨[d1, d2], rfl, by simp [h1, h2], Or.inr rfl⟩
        | inr h => subst h; exact ⟨[d1], rfl, by simp [h1], Or.inl rfl⟩
      · rw [List.mem_singleton] at h
        subst h
        exact ⟨[d1], rfl, by simp [h1], Or.inl rfl⟩
    · simp at h

theorem digit12Alts_mem (d rest : Str) (hd : d.all isDigitChar = true)
    (hl : d.length = 1 ∨ d.length = 2) : rest ∈ digit12Alts (d ++ rest) := by
  match d, hl with
  | [a], _ =>
    rw [List.all_cons, List.all_nil, Bool.and_eq_true] at hd
    cases rest with
    | nil => simp [digit12Alts, hd.1]
    | cons c2 r2 =>
      rw [List.cons_append, List.nil_append, digit12Alts, if_pos hd.1]
      split
      · exact List.mem_cons_of_mem _ (List.mem_singleton.mpr rfl)
      · exact List.mem_singleton.mpr rfl
  | [a, b], _ =>
    rw [List.all_cons, List.all_cons, List.all_nil, Bool.and_eq_true, Bool.and_eq_true] at hd
    rw [List.cons_append, List.cons_append, List.nil_append, digit12Alts,
      if_pos hd.1, if_pos hd.2.1]
    exact List.mem_cons_self _ _
  | [], hl => simp at hl
  | a :: b :: c :: l, hl => simp at hl

theorem monthAlts_sound {s r : Str} (h : r ∈ monthAlts s) :
    ∃ m, m ∈ MONTHS ∧ startsWithL m s = true ∧ s = m ++ r := by
  rw [monthAlts] at h
  cases hf : MONTHS.find? (fun m => startsWithL m s) with
  | none => rw [hf] at h; simp at h
  | some m =>
    rw [hf, List.mem_singleton] at h
    subst h
    have hm := List.mem_of_find?_eq_some hf
    have hp := List.find?_some hf
    refine ⟨m, hm, hp, ?_⟩
    have he := eq_append_drop_of_startsWith hp
    rw [months_length3 m hm] at he
    exact he

theorem monthAlts_mem (m rest : Str) (hm : m ∈ MONTHS) :
    rest ∈ monthAlts (m ++ rest) := by
  rw [monthAlts]
  have hsome : (MONTHS.find? (fun m2 => startsWithL m2 (m ++ rest))).isSome := by
    rw [List.find?_isSome]
    exact ⟨m, hm, startsWithL_append_self m rest⟩
  cases hf : MONTHS.find? (fun m2 => startsWithL m2 (m ++ rest)) with
  | none => rw [hf] at hsome; simp at hsome
  | some m2 =>
    rw [List.mem_singleton, ← months_length3 m hm, List.drop_left]

theorem leadingCount_eq_zero_of_head {p : Char → Bool} {c : Char} {cs : Str}
    (hc : p c = false) : leadingCount p (c :: cs) = 0 := by
  rw [leadingCount, hc]
  simp

theorem dateAlts_sound {s r : Str} (h : r ∈ dateAlts s) :
    ∃ t, s = t ++ r ∧ isDateTok t = true := by
  rw [dateAlts, List.mem_flatMap] at h
  obtain ⟨r1, hr1, h⟩ := h
  rw [List.mem_flatMap] at h
  obtain ⟨r2, hr2, hr⟩ := h
  obtain ⟨m, hm, hpm, hseq⟩ := monthAlts_sound hr1
  obtain ⟨w, hw_eq, hw⟩ := wsAltsGreedy_sound hr2
  obtain ⟨d, hd_eq, hdall, hdlen⟩ := digit12Alts_sound hr
  rw [isWSRun, Bool.and_eq_true, Bool.not_eq_true'] at hw
  have hdne : d ≠ [] := by
    intro hnil
    rw [hnil] at hdlen
    simp at hdlen
  have hwne : w ≠ [] := by
    intro hnil
    rw [hnil] at hw
    simp at hw
  have hkd : leadingCount isWSChar d = 0 := by
    cases d with
    | nil => exact absurd rfl hdne
    | cons a l =>
      rw [List.all_cons, Bool.and_eq_true] at hdall
      exact leadingCount_eq_zero_of_head (digit_not_ws a hdall.1)
  have hk : leadingCount isWSChar (w ++ d) = w.length := by
    rw [leadingCount_append_all isWSChar w d hw.2, hkd]
    omega
  refine ⟨m ++ (w ++ d), ?_, ?_⟩
  · rw [hseq, hw_eq, hd_eq]
    simp [List.append_assoc]
  · rw [isDateTok]
    have hsome : (MONTHS.find? (fun m2 => startsWithL m2 (m ++ (w ++ d)))).isSome := by
      rw [List.find?_isSome]
      exact ⟨m, hm, startsWithL_append_self m (w ++ d)⟩
    cases hf : MONTHS.find? (fun m2 => startsWithL m2 (m ++ (w ++ d))) with
    | none => rw [hf] at hsome; simp at hsome
    | some m2 =>
      have hdrop3 : (m ++ (w ++ d)).drop 3 = w ++ d := by
        rw [← months_length3 m hm, List.drop_left]
      dsimp only
      rw [hdrop3, hk, List.drop_left]
      have h1k : 1 ≤ w.length := by
        cases w with
        | nil => exact absurd rfl hwne
        | cons a l => simp
      rw [Bool.and_eq_true, Bool.and_eq_true]
      refine ⟨⟨by simpa using h1k, ?_⟩, hdall⟩
      cases hdlen with
      | inl h1 => rw [h1]; simp
      | inr h2 => rw [h2]; simp

theorem dateAlts_mem (t rest : Str) (ht : isDateTok t = true) :
    rest ∈ dateAlts (t ++ rest) := by
  rw [isDateTok] at ht
  cases hf : MONTHS.find? (fun m => startsWithL m t) with
  | none => rw [hf] at ht; simp at ht
  | some m =>
    rw [hf] at ht
    dsimp only at ht
    rw [Bool.and_eq_true, Bool.and_eq_true, Bool.or_eq_true] at ht
    obtain ⟨⟨hk1, hdl⟩, hdall⟩ := ht
    have hm := List.mem_of_find?_eq_some hf
    have hpm := List.find?_some hf
    have hteq : t = m ++ t.drop 3 := by
      have he := eq_append_drop_of_startsWith hpm
      rw [months_length3 m hm] at he
      exact he
    set r := t.drop 3 with hr
    set k := leadingCount isWSChar r with hkdef
    set d := r.drop k with hd
    have hk1n : 1 ≤ k := by simpa using hk1
    have hrsplit : r = r.take k ++ d := (List.take_append_drop k r).symm
    have hwall : (r.take k).all isWSChar = true := all_take_leadingCount isWSChar r k le_rfl
    have hwlen : (r.take k).length = k := by
      rw [List.length_take]
      have := leadingCount_le_length isWSChar r
      omega
    have hwne : r.take k ≠ [] :=
      take_ne_nil_of_pos r k hk1n (le_trans le_rfl (leadingCount_le_length isWSChar r))
    rw [dateAlts, List.mem_flatMap]
    refine ⟨(r ++ rest), ?_, ?_⟩
    · have : t ++ rest = m ++ (r ++ rest) := by
        conv_lhs => rw [hteq]
        rw [List.append_assoc]
      rw [this]
      exact monthAlts_mem m (r ++ rest) hm
    · rw [List.mem_flatMap]
      refine ⟨d ++ rest, ?_, ?_⟩
      · have : r ++ rest = r.take k ++ (d ++ rest) := by
          conv_lhs => rw [hrsplit]
          rw [List.append_assoc]
        rw [this]
        apply wsAltsGreedy_mem
        rw [isWSRun, Bool.and_eq_true, Bool.not_eq_true']
        exact ⟨ne_nil_isEmpty_false hwne, hwall⟩
      · apply digit12Alts_mem d rest hdall
        cases hdl with
        | inl h1 => exact Or.inl (by simpa using h1)
        | inr h2 => exact Or.inr (by simpa using h2)

theorem dropWhile_append_all {p : Char → Bool} {x : Str} (y : Str)
    (hx : x.all p = true) : (x ++ y).dropWhile p = y.dropWhile p := by
  induction x with
  | nil => simp
  | cons c cs ih =>
    rw [List.all_cons, Bool.and_eq_true] at hx
    rw [List.cons_append, List.dropWhile_cons, if_pos hx.1]
    exact ih hx.2

theorem dropWhile_eq_nil_of_all {p : Char → Bool} {x : Str}
    (hx : x.all p = true) : x.dropWhile p = [] := by
  have := dropWhile_append_all (p := p) [] hx
  simpa using this

theorem all_takeWhile (p : Char → Bool) (l : Str) : (l.takeWhile p).all p = true := by
  induction l with
  | nil => simp
  | cons c cs ih =>
    rw [List.takeWhile_cons]
    split
    · next h => rw [List.all_cons, Bool.and_eq_true]; exact ⟨h, ih⟩
    · simp

theorem signAlts_sound {s r : Str} (h : r ∈ signAlts s) :
    ∃ g, s = g ++ r ∧ (g = [] ∨ g = ['-']) := by
  match s with
  | [] =>
    rw [signAlts, List.mem_singleton] at h
    exact ⟨[], by simp [h], Or.inl rfl⟩
  | c :: cs =>
    rw [signAlts] at h
    split at h
    · next hc =>
      rw [List.mem_cons, List.mem_singleton] at h
      cases h with
      | inl h => exact ⟨[c], by simp [h, hc], Or.inr (by rw [hc])⟩
      | inr h => exact ⟨[], by simp [h], Or.inl rfl⟩
    · rw [List.mem_singleton] at h
      exact ⟨[], by simp [h], Or.inl rfl⟩

theorem firstDigitAlts_sound {s r : Str} (h : r ∈ firstDigitAlts s) :
    ∃ c, s = c :: r ∧ isDigitChar c = true := by
  match s with
  | [] => simp [firstDigitAlts] at h
  | c :: cs =>
    rw [firstDigitAlts] at h
    split at h
    · next hc =>
      rw [List.mem_singleton] at h
      exact ⟨c, by simp [h], hc⟩
    · simp at h

theorem digitCommaStarAlts_iff (s r : Str) :
    r ∈ digitCommaStarAlts s ↔ ∃ j, j ≤ leadingCount digitComma s ∧ r = s.drop j := by
  rw [digitCommaStarAlts]
  exact mem_dropRange0_iff s (leadingCount digitComma s) r

theorem digitCommaStarAlts_sound {s r : Str} (h : r ∈ digitCommaStarAlts s) :
    ∃ x, s = x ++ r ∧ x.all digitComma = true := by
  obtain ⟨j, hj, rfl⟩ := (digitCommaStarAlts_iff s _).mp h
  exact ⟨s.take j, (List.take_append_drop j s).symm, all_take_leadingCount _ s j hj⟩

theorem digitCommaStarAlts_mem (x rest : Str) (hx : x.all digitComma = true) :
    rest ∈ digitCommaStarAlts (x ++ rest) := by
  rw [digitCommaStarAlts_iff]
  refine ⟨x.length, ?_, (List.drop_left x rest).symm⟩
  rw [leadingCount_append_all digitComma x rest hx]
  omega

theorem dotAlts_sound {s r : Str} (h : r ∈ dotAlts s) :
    ∃ g, s = g ++ r ∧ (g = [] ∨ g = ['.']) := by
  match s with
  | [] =>
    rw [dotAlts, List.mem_singleton] at h
    exact ⟨[], by simp [h], Or.inl rfl⟩
  | c :: cs =>
    rw [dotAlts] at h
    split at h
    · next hc =>
      rw [List.mem_cons, List.mem_singleton] at h
      cases h with
      | inl h => exact ⟨[c], by simp [h, hc], Or.inr (by rw [hc])⟩
      | inr h => exact ⟨[], by simp [h], Or.inl rfl⟩
    · rw [List.mem_singleton] at h
      exact ⟨[], by simp [h], Or.inl rfl⟩

theorem dotAlts_self (s : Str) : s ∈ dotAlts s := by
  match s with
  | [] => rw [dotAlts]; exact List.mem_singleton.mpr rfl
  | c :: cs =>
    rw [dotAlts]
    split
    · exact List.mem_cons_of_mem _ (List.mem_singleton.mpr rfl)
    · exact List.mem_singleton.mpr rfl

theorem dotAlts_consume (f : Str) : f ∈ dotAlts ('.' :: f) := by
  rw [dotAlts, if_pos rfl]
  exact List.mem_cons_self _ _

theorem frac02Alts_sound {s r : Str} (h : r ∈ frac02Alts s) :
    ∃ f, s = f ++ r ∧ f.all isDigitChar = true ∧ f.length ≤ 2 := by
  match s with
  | [] =>
    rw [frac02Alts, List.mem_singleton] at h
    exact ⟨[], by simp [h], by simp, by simp⟩
  | [d1] =>
    rw [frac02Alts] at h
    split at h
    · next h1 =>
      rw [List.mem_cons, List.mem_singleton] at h
      cases h with
      | inl h => exact ⟨[d1], by simp [h], by simp [h1], by simp⟩
      | inr h => exact ⟨[], by simp [h], by simp, by simp⟩
    · rw [List.mem_singleton] at h
      exact ⟨[], by simp [h], by simp, by simp⟩
  | d1 :: d2 :: rest =>
    rw [frac02Alts] at h
    split at h
    · next h1 =>
      split at h
      · next h2 =>
        rw [List.mem_cons, List.mem_cons, List.mem_singleton] at h
        rcases h with h | h | h
        · exact ⟨[d1, d2], by simp [h], by simp [h1, h2], by simp⟩
        · exact ⟨[d1], by simp [h], by simp [h1], by simp⟩
        · exact ⟨[], by simp [h], by simp, by simp⟩
      · rw [List.mem_cons, List.mem_singleton] at h
        rcases h with h | h
        · exact ⟨[d1], by simp [h], by simp [h1], by simp⟩
        · exact ⟨[], by simp [h], by simp, by simp⟩
    · rw [List.mem_singleton] at h
      exact ⟨[], by simp [h], by simp, by simp⟩

theorem frac02Alts_self (s : Str) : s ∈ frac02Alts s := by
  match s with
  | [] => rw [frac02Alts]; exact List.mem_singleton.mpr rfl
  | [d1] =>
    rw [frac02Alts]
    split
    · exact List.mem_cons_of_mem _ (List.mem_singleton.mpr rfl)
    · exact List.mem_singleton.mpr rfl
  | d1 :: d2 :: rest =>
    rw [frac02Alts]
    split
    · split
      · exact List.mem_cons_of_mem _ (List.mem_cons_of_mem _ (List.mem_singleton.mpr rfl))
      · exact List.mem_cons_of_mem _ (List.mem_singleton.mpr rfl)
    · exact List.mem_singleton.mpr rfl

theorem frac02Alts_mem (f rest : Str) (hf : f.all isDigitChar = true)
    (hl : f.length ≤ 2) : rest ∈ frac02Alts (f ++ rest) := by
  match f with
  | [] => exact frac02Alts_self rest
  | [e1] =>
    rw [List.all_cons, List.all_nil, Bool.and_eq_true] at hf
    cases rest with
    | nil =>
      rw [List.cons_append, List.nil_append, frac02Alts, if_pos hf.1]
      exact List.mem_cons_self _ _
    | cons c2 r2 =>
      rw [List.cons_append, List.nil_append, frac02Alts, if_pos hf.1]
      split
      · exact List.mem_cons_of_mem _ (List.mem_cons_self _ _)
      · exact List.mem_cons_self _ _
  | [e1, e2] =>
    rw [List.all_cons, List.all_cons, List.all_nil, Bool.and_eq_true, Bool.and_eq_true] at hf
    rw [List.cons_append, List.cons_append, List.nil_append, frac02Alts,
      if_pos hf.1, if_pos hf.2.1]
    exact List.mem_cons_self _ _
  | e1 :: e2 :: e3 :: l => simp at hl

theorem digit_ne_dash {c : Char} (h : isDigitChar c = true) : ¬(c = '-') := by
  intro hc
  rw [hc] at h
  simp [isDigitChar] at h

theorem digit_digitComma {c : Char} (h : isDigitChar c = true) : digitComma c = true := by
  rw [digitComma, h]
  simp

theorem digitComma_dot_false : digitComma '.' = false := by decide

theorem all_digit_digitComma {f : Str} (h : f.all isDigitChar = true) :
    f.all digitComma = true := by
  rw [List.all_eq_true] at h ⊢
  intro c hc
  exact digit_digitComma (h c hc)

theorem isAmountTok_build (g : Str) (c1 : Char) (x gd f : Str)
    (hg : g = [] ∨ g = ['-']) (hc1 : isDigitChar c1 = true)
    (hx : x.all digitComma = true) (hgd : gd = [] ∨ gd = ['.'])
    (hfall : f.all isDigitChar = true) (hflen : f.length ≤ 2) :
    isAmountTok (g ++ c1 :: (x ++ (gd ++ f))) = true := by
  have hinner :
      (match (x ++ (gd ++ f)).dropWhile digitComma with
       | [] => true
       | d :: f2 => d = '.' && f2.all isDigitChar && decide (f2.length ≤ 2)) = true := by
    cases hgd with
    | inl hnil =>
      subst hnil
      rw [List.nil_append, dropWhile_eq_nil_of_all (x := x ++ f) ?hall]
      case hall =>
        rw [List.all_append, Bool.and_eq_true]
        exact ⟨hx, all_digit_digitComma hfall⟩
    | inr hdot =>
      subst hdot
      rw [dropWhile_append_all _ hx, List.singleton_append, List.dropWhile_cons,
        digitComma_dot_false]
      simp only [Bool.false_eq_true, if_false]
      rw [Bool.and_eq_true, Bool.and_eq_true]
      exact ⟨⟨by simp, hfall⟩, by simpa using hflen⟩
  cases hg with
  | inl hnil =>
    subst hnil
    rw [List.nil_append]
    simp only [isAmountTok]
    rw [if_neg (digit_ne_dash hc1)]
    dsimp only
    rw [hc1, Bool.true_and]
    exact hinner
  | inr hdash =>
    subst hdash
    simp only [isAmountTok, List.cons_append]
    rw [if_pos trivial, List.nil_append]
    dsimp only
    rw [hc1, Bool.true_and]
    exact hinner

theorem amountAlts_sound {s r : Str} (h : r ∈ amountAlts s) :
    ∃ a, s = a ++ r ∧ isAmountTok a = true := by
  rw [amountAlts, List.mem_flatMap] at h
  obtain ⟨r1, hr1, h⟩ := h
  rw [List.mem_flatMap] at h
  obtain ⟨r2, hr2, h⟩ := h
  rw [List.mem_flatMap] at h
  obtain ⟨r3, hr3, h⟩ := h
  rw [List.mem_flatMap] at h
  obtain ⟨r4, hr4, hr⟩ := h
  obtain ⟨g, hg_eq, hg⟩ := signAlts_sound hr1
  obtain ⟨c1, hc1_eq, hc1⟩ := firstDigitAlts_sound hr2
  obtain ⟨x, hx_eq, hx⟩ := digitCommaStarAlts_sound hr3
  obtain ⟨gd, hgd_eq, hgd⟩ := dotAlts_sound hr4
  obtain ⟨f, hf_eq, hfall, hflen⟩ := frac02Alts_sound hr
  refine ⟨g ++ c1 :: (x ++ (gd ++ f)), ?_,
    isAmountTok_build g c1 x gd f hg hc1 hx hgd hfall hflen⟩
  rw [hg_eq, hc1_eq, hx_eq, hgd_eq, hf_eq]
  simp [List.append_assoc]

theorem amountAlts_mem (a rest : Str) (ha : isAmountTok a = true) :
    rest ∈ amountAlts (a ++ rest) := by
  match a with
  | [] => simp [isAmountTok] at ha
  | c :: r0 =>
    rw [isAmountTok] at ha
    by_cases hdash : c = '-'
    · rw [if_pos hdash] at ha
      subst hdash
      cases r0 with
      | nil => simp at ha
      | cons c1 r1 =>
        dsimp only at ha
        rw [Bool.and_eq_true] at ha
        obtain ⟨hc1, hrest⟩ := ha
        have hsplit : r1 = r1.takeWhile digitComma ++ r1.dropWhile digitComma :=
          (List.takeWhile_append_dropWhile digitComma r1).symm
        rw [amountAlts, List.mem_flatMap]
        refine ⟨(c1 :: r1) ++ rest, ?_, ?_⟩
        · rw [List.cons_append, signAlts, if_pos rfl]
          exact List.mem_cons_self _ _
        · rw [List.mem_flatMap]
          refine ⟨r1 ++ rest, ?_, ?_⟩
          · rw [List.cons_append, firstDigitAlts, if_pos hc1]
            exact List.mem_singleton.mpr rfl
          · rw [List.mem_flatMap]
            refine ⟨r1.dropWhile digitComma ++ rest, ?_, ?_⟩
            · conv in r1 ++ rest => rw [hsplit]
              rw [List.append_assoc]
              exact digitCommaStarAlts_mem _ _ (all_takeWhile digitComma r1)
            · rw [List.mem_flatMap]
              cases hrw : r1.dropWhile digitComma with
              | nil =>
                rw [List.nil_append]
                exact ⟨rest, dotAlts_self rest, frac02Alts_self rest⟩
              | cons d f =>
                rw [hrw] at hrest
                rw [Bool.and_eq_true, Bool.and_eq_true] at hrest
                obtain ⟨⟨hd, hfall⟩, hflen⟩ := hrest
                have hd2 : d = '.' := by simpa using hd
                subst hd2
                rw [List.cons_append]
                exact ⟨f ++ rest, dotAlts_consume (f ++ rest),
                  frac02Alts_mem f rest hfall (by simpa using hflen)⟩
    · rw [if_neg hdash] at ha
      dsimp only at ha
      rw [Bool.and_eq_true] at ha
      obtain ⟨hc1, hrest⟩ := ha
      have hsplit : r0 = r0.takeWhile digitComma ++ r0.dropWhile digitComma :=
        (List.takeWhile_append_dropWhile digitComma r0).symm
      rw [amountAlts, List.mem_flatMap]
      refine ⟨(c :: r0) ++ rest, ?_, ?_⟩
      · rw [List.cons_append, signAlts, if_neg hdash]
        exact List.mem_singleton.mpr rfl
      · rw [List.mem_flatMap]
        refine ⟨r0 ++ rest, ?_, ?_⟩
        · rw [List.cons_append, firstDigitAlts, if_pos hc1]
          exact List.mem_singleton.mpr rfl
        · rw [List.mem_flatMap]
          refine ⟨r0.dropWhile digitComma ++ rest, ?_, ?_⟩
          · conv in r0 ++ rest => rw [hsplit]
            rw [List.append_assoc]
            exact digitCommaStarAlts_mem _ _ (all_takeWhile digitComma r0)
          · rw [List.mem_flatMap]
            cases hrw : r0.dropWhile digitComma with
            | nil =>
              rw [List.nil_append]
              exact ⟨rest, dotAlts_self rest, frac02Alts_self rest⟩
            | cons d f =>
              rw [hrw] at hrest
              rw [Bool.and_eq_true, Bool.and_eq_true] at hrest
              obtain ⟨⟨hd, hfall⟩, hflen⟩ := hrest
              have hd2 : d = '.' := by simpa using hd
              subst hd2
              rw [List.cons_append]
              exact ⟨f ++ rest, dotAlts_consume (f ++ rest),
                frac02Alts_mem f rest hfall (by simpa using hflen)⟩

/-- A decomposition of a line into the exact shape of `ROW_RE`:
two date tokens, a nonempty newline-free body, and an amount token,
separated by whitespace runs, with `$` allowing one final newline. -/
def IsRowDecomp (s t p b a : Str) : Prop :=
  ∃ w1 w2 w3 tail,
    s = t ++ (w1 ++ (p ++ (w2 ++ (b ++ (w3 ++ (a ++ tail)))))) ∧
    isDateTok t = true ∧ isDateTok p = true ∧
    isWSRun w1 = true ∧ isWSRun w2 = true ∧ isWSRun w3 = true ∧
    b ≠ [] ∧ b.all (fun c => !(c = '\n')) = true ∧
    isAmountTok a = true ∧ (tail = [] ∨ tail = ['\n'])

theorem endAnchor_cases {r : Str} (h : endAnchor r = true) : r = [] ∨ r = ['\n'] := by
  rw [endAnchor, Bool.or_eq_true] at h
  cases h with
  | inl h => exact Or.inl (by simpa using h)
  | inr h => exact Or.inr (by simpa using h)

theorem endAnchor_of_cases {r : Str} (h : r = [] ∨ r = ['\n']) : endAnchor r = true := by
  cases h with
  | inl h => subst h; rfl
  | inr h => subst h; rfl

/-- Soundness of the `ROW_RE` matcher: a successful match yields exactly
the captures of a decomposition of the line into the row shape. -/
theorem rowMatch_sound {s t p b a : Str} (h : rowMatch s = some (t, p, b, a)) :
    IsRowDecomp s t p b a := by
  rw [rowMatch] at h
  obtain ⟨r1, hr1, h⟩ := findSome?_ex _ _ _ h
  obtain ⟨r2, hr2, h⟩ := findSome?_ex _ _ _ h
  obtain ⟨r3, hr3, h⟩ := findSome?_ex _ _ _ h
  obtain ⟨r4, hr4, h⟩ := findSome?_ex _ _ _ h
  obtain ⟨r5, hr5, h⟩ := findSome?_ex _ _ _ h
  obtain ⟨r6, hr6, h⟩ := findSome?_ex _ _ _ h
  obtain ⟨r7, hr7, h⟩ := findSome?_ex _ _ _ h
  split at h
  · next hanchor =>
    injection h with h
    rw [Prod.mk.injEq, Prod.mk.injEq, Prod.mk.injEq] at h
    obtain ⟨ht, hp, hb, ha⟩ := h
    obtain ⟨tseg, hts, htok⟩ := dateAlts_sound hr1
    obtain ⟨w1, hw1s, hw1⟩ := wsAltsGreedy_sound hr2
    obtain ⟨pseg, hps, hptok⟩ := dateAlts_sound hr3
    obtain ⟨w2, hw2s, hw2⟩ := wsAltsGreedy_sound hr4
    obtain ⟨bseg, hbs, hbne, hbnl⟩ := bodyAlts_sound hr5
    obtain ⟨w3, hw3s, hw3⟩ := wsAltsGreedy_sound hr6
    obtain ⟨aseg, has, hatok⟩ := amountAlts_sound hr7
    have htt : t = tseg := by rw [← ht, hts, take_sub_of_append]
    have hpp : p = pseg := by rw [← hp, hps, take_sub_of_append]
    have hbb : b = bseg := by rw [← hb, hbs, take_sub_of_append]
    have haa : a = aseg := by rw [← ha, has, take_sub_of_append]
    subst htt hpp hbb haa
    refine ⟨w1, w2, w3, r7, ?_, htok, hptok, hw1, hw2, hw3, hbne, hbnl, hatok,
      endAnchor_cases hanchor⟩
    rw [hts, hw1s, hps, hw2s, hbs, hw3s, has]
  · cases h

/-- Completeness of the `ROW_RE` matcher: every line of the row shape is
accepted. -/
theorem rowMatch_complete {s t p b a : Str} (h : IsRowDecomp s t p b a) :
    (rowMatch s).isSome = true := by
  obtain ⟨w1, w2, w3, tail, hs, ht, hp, hw1, hw2, hw3, hbne, hbnl, ha, htail⟩ := h
  rw [rowMatch]
  subst hs
  apply findSome?_isSome_of _ _ (w1 ++ (p ++ (w2 ++ (b ++ (w3 ++ (a ++ tail)))))) 
    (dateAlts_mem t _ ht)
  apply findSome?_isSome_of _ _ (p ++ (w2 ++ (b ++ (w3 ++ (a ++ tail)))))
    (wsAltsGreedy_mem w1 _ hw1)
  apply findSome?_isSome_of _ _ (w2 ++ (b ++ (w3 ++ (a ++ tail))))
    (dateAlts_mem p _ hp)
  apply findSome?_isSome_of _ _ (b ++ (w3 ++ (a ++ tail)))
    (wsAltsGreedy_mem w2 _ hw2)
  apply findSome?_isSome_of _ _ (w3 ++ (a ++ tail))
    (bodyAlts_mem b _ hbne hbnl)
  apply findSome?_isSome_of _ _ (a ++ tail)
    (wsAltsGreedy_mem w3 _ hw3)
  apply findSome?_isSome_of _ _ tail
    (amountAlts_mem a tail ha)
  rw [endAnchor_of_cases htail]
  rfl

/-- C3: the row grammar matcher accepts exactly lines of shape
`<date1> <date2> <body> <amount>` — every successful match decomposes the
line into two `DATE_RE` tokens, a nonempty newline-free body and an
`AMOUNT_RE` token separated by whitespace runs, and every line of that
shape is accepted — and the body is matched non-greedily: in particular
`"Jan 5 Jan 7 TIM HORTONS OTTAWA ON Retail and Grocery 12.34"` splits
into trans date `"Jan 5"`, post date `"Jan 7"`, body
`"TIM HORTONS OTTAWA ON Retail and Grocery"` and amount token `"12.34"`. -/
theorem c3_row_grammar :
    (∀ s t p b a : Str, rowMatch s = some (t, p, b, a) → IsRowDecomp s t p b a) ∧
    (∀ s t p b a : Str, IsRowDecomp s t p b a → (rowMatch s).isSome = true) ∧
    rowMatch (strL "Jan 5 Jan 7 TIM HORTONS OTTAWA ON Retail and Grocery 12.34") =
      some (strL "Jan 5", strL "Jan 7",
        strL "TIM HORTONS OTTAWA ON Retail and Grocery", strL "12.34") :=
  ⟨fun _ _ _ _ _ h => rowMatch_sound h,
   fun _ _ _ _ _ h => rowMatch_complete h,
   by decide⟩

/-- Witness for C3 at a concrete accepted line. -/
theorem c3_row_grammar_witness :
    IsRowDecomp (strL "Jan 5 Jan 7 STORE 1.00")
      (strL "Jan 5") (strL "Jan 7") (strL "STORE") (strL "1.00") ∧
    (rowMatch (strL "Jan 5 Jan 7 STORE 1.00")).isSome = true := by
  have h1 := c3_row_grammar.1 (strL "Jan 5 Jan 7 STORE 1.00")
    (strL "Jan 5") (strL "Jan 7") (strL "STORE") (strL "1.00") (by decide)
  exact ⟨h1, c3_row_grammar.2.1 _ _ _ _ _ h1⟩

/- =========================
   C4 / C9: date normalization
   ========================= -/

theorem lastDay_ge_28 (year m : Nat) : 28 ≤ lastDay year m := by
  rw [lastDay]
  split
  · split <;> omega
  · split <;> omega

/-- C4: for a `"Mon D"` token with a canonical month abbreviation and a
numeric day `1 ≤ d ≤ 31`, normalization returns the exact date when the
day is valid for that month and year, and clamps to the month's last day
(e.g. `"Feb 29"` in a non-leap year becomes Feb 28) instead of failing
when it is not. -/
theorem c4_normalize_date (tok mon ds : Str) (m d year : Nat)
    (hsplit : splitWS tok = [mon, ds])
    (hmon : monthNum mon = some m)
    (hds : ds.all isDigitChar = true)
    (hd : strToNat ds = d) (h1 : 1 ≤ d) (h31 : d ≤ 31) :
    (d ≤ lastDay year m → normalizeDate tok year = .ok ⟨year, m, d⟩) ∧
    (lastDay year m < d → normalizeDate tok year = .ok ⟨year, m, lastDay year m⟩) := by
  constructor
  · intro hvalid
    have hdt : dtparseModel tok year = .ok ⟨year, m, d⟩ := by
      rw [dtparseModel, hsplit]
      dsimp only
      rw [hmon]
      dsimp only
      rw [hds]
      rw [if_pos rfl]
      rw [hd, if_pos]
      simp only [Bool.and_eq_true, decide_eq_true_eq]
      omega
    rw [normalizeDate, hdt]
  · intro hclamp
    have hdt : dtparseModel tok year = .error (.dayOutOfRange tok) := by
      rw [dtparseModel, hsplit]
      dsimp only
      rw [hmon]
      dsimp only
      rw [hds]
      rw [if_pos rfl]
      rw [hd, if_neg, if_pos (by simpa using h31)]
      simp only [Bool.and_eq_true, decide_eq_true_eq]
      omega
    rw [normalizeDate, hdt]
    dsimp only
    rw [hsplit]
    dsimp only
    rw [hmon]
    dsimp only
    rw [hds]
    rw [if_pos rfl]
    rw [hd]
    have hmin : min d (lastDay year m) = lastDay year m := by omega
    rw [hmin, if_pos]
    have := lastDay_ge_28 year m
    simpa using (by omega : 1 ≤ lastDay year m)

/-- Witness for C4: `"Feb 10"` 2025 is exact, `"Feb 29"` 2025 (non-leap)
clamps to Feb 28. -/
theorem c4_normalize_date_witness :
    normalizeDate (strL "Feb 10") 2025 = .ok ⟨2025, 2, 10⟩ ∧
    normalizeDate (strL "Feb 29") 2025 = .ok ⟨2025, 2, 28⟩ := by
  constructor
  · exact (c4_normalize_date (strL "Feb 10") (strL "Feb") (strL "10") 2 10 2025
      (by decide) (by decide) (by decide) (by decide) (by decide) (by decide)).1
      (by decide)
  · exact (c4_normalize_date (strL "Feb 29") (strL "Feb") (strL "29") 2 29 2025
      (by decide) (by decide) (by decide) (by decide) (by decide) (by decide)).2
      (by decide)

/- =========================
   A matched row line starts with a month initial, hence is neither a
   section header, nor the payments total, nor noise.
   ========================= -/

def monthInitial (c : Char) : Bool :=
  c = 'J' || c = 'F' || c = 'M' || c = 'A' || c = 'S' || c = 'O' || c = 'N' || c = 'D'

theorem isDateTok_month {t : Str} (h : isDateTok t = true) :
    ∃ m ∈ MONTHS, startsWithL m t = true := by
  rw [isDateTok] at h
  cases hf : MONTHS.find? (fun m => startsWithL m t) with
  | none => rw [hf] at h; simp at h
  | some m =>
    refine ⟨m, List.mem_of_find?_eq_some hf, ?_⟩
    have := List.find?_some hf
    simpa using this

theorem months_initial : ∀ m ∈ MONTHS, ∃ c m2, m = c :: m2 ∧ monthInitial c = true := by
  intro m hm
  fin_cases hm <;> exact ⟨_, _, rfl, by decide⟩

theorem rowMatch_head {s : Str} {q : Str × Str × Str × Str} (h : rowMatch s = some q) :
    ∃ c s2, s = c :: s2 ∧ monthInitial c = true := by
  obtain ⟨t, p, b, a⟩ := q
  obtain ⟨w1, w2, w3, tail, hs, ht, _⟩ := rowMatch_sound h
  obtain ⟨m, hm, hstart⟩ := isDateTok_month ht
  obtain ⟨c, m2, rfl, hci⟩ := months_initial m hm
  obtain ⟨r, hr⟩ := (startsWithL_iff _ _).mp hstart
  refine ⟨c, m2 ++ r ++ (w1 ++ (p ++ (w2 ++ (b ++ (w3 ++ (a ++ tail)))))), ?_, hci⟩
  rw [hs, hr]
  simp [List.append_assoc]

theorem startsWithL_head_ne {p c : Char} (ps cs : Str) (h : ¬(p = c)) :
    startsWithL (p :: ps) (c :: cs) = false := by
  rw [startsWithL, if_neg h]

theorem rstripWS_cons_not_ws {c : Char} (hc : isWSChar c = false) (s : Str) :
    rstripWS (c :: s) = c :: rstripWS s := by
  rw [rstripWS]
  simp [hc]

theorem stripWS_cons_not_ws {c : Char} (hc : isWSChar c = false) (s : Str) :
    stripWS (c :: s) = c :: rstripWS s := by
  rw [stripWS, List.dropWhile_cons, hc]
  simp only [Bool.false_eq_true, if_false]
  exact rstripWS_cons_not_ws hc s

theorem matchStarBarcode_cons_false {c : Char} (hc : ¬(c = '*')) (s : Str) :
    matchStarBarcode (c :: s) = false := by
  rw [matchStarBarcode]
  simp [hc]

theorem matchDashRef_cons_false {c : Char} (hdash : ¬(c = '-'))
    (hdig : isDigitChar c = false) (s : Str) : matchDashRef (c :: s) = false := by
  rw [matchDashRef]
  dsimp only
  rw [if_neg hdash]
  cases s with
  | nil => rfl
  | cons b s2 =>
    cases s2 with
    | nil => rfl
    | cons c3 s3 =>
      dsimp only
      rw [hdig]
      simp

theorem matchPageNofM_cons_false {c : Char} (hc : ¬(c = 'P')) (s : Str) :
    matchPageNofM (c :: s) = false := by
  rw [matchPageNofM]
  have hstart : startsWithL (strL "Page ") (c :: s) = false := by
    have he : strL "Page " = 'P' :: strL "age " := rfl
    rw [he]
    exact startsWithL_head_ne _ _ (fun hh => hc hh.symm)
  rw [hstart]
  simp

/-- A line whose first char is not one of the noise-triggering initials
and not whitespace is not noise. -/
theorem isNoise_cons_false {c : Char} (s : Str)
    (h1 : ¬(c = 'C')) (h2 : ¬(c = 'T')) (h3 : ¬(c = 'P')) (h4 : ¬(c = '*'))
    (h5 : ¬(c = '-')) (h6 : isDigitChar c = false) (h7 : isWSChar c = false) :
    isNoise (c :: s) = false := by
  rw [isNoise]
  rw [stripWS_cons_not_ws h7]
  have hcard : startsWithL CARD_NUMBER_PREFIX (c :: rstripWS s) = false := by
    have he : CARD_NUMBER_PREFIX = 'C' :: strL "ard number" := rfl
    rw [he]
    exact startsWithL_head_ne _ _ (fun hh => h1 hh.symm)
  have htot : startsWithL TOTAL_FOR_PREFIX (c :: rstripWS s) = false := by
    have he : TOTAL_FOR_PREFIX = 'T' :: strL "otal for" := rfl
    rw [he]
    exact startsWithL_head_ne _ _ (fun hh => h2 hh.symm)
  rw [hcard, htot, matchPageNofM_cons_false h3, matchStarBarcode_cons_false h4,
    matchDashRef_cons_false h5 h6]
  simp

theorem monthInitial_facts {c : Char} (hci : monthInitial c = true) :
    ¬(c = 'C') ∧ ¬(c = 'T') ∧ ¬(c = 'P') ∧ ¬(c = '*') ∧ ¬(c = '-') ∧
    isDigitChar c = false ∧ isWSChar c = false ∧ ¬(c = 'Y') := by
  rw [monthInitial] at hci
  simp only [Bool.or_eq_true, decide_eq_true_eq] at hci
  rcases hci with (((((((h | h) | h) | h) | h) | h) | h) | h) <;> subst h <;>
    refine ⟨?_, ?_, ?_, ?_, ?_, ?_, ?_, ?_⟩ <;> decide

/-- Header and total-line prefix tests all fail on a line starting with a
month initial. -/
theorem headers_false_of_monthInitial {c : Char} (hci : monthInitial c = true) (s : Str) :
    startsWithL PAYMENTS_START (c :: s) = false ∧
    startsWithL CHARGES_START (c :: s) = false ∧
    startsWithL PAYMENTS_TOTAL_PREFIX (c :: s) = false ∧
    isNoise (c :: s) = false := by
  obtain ⟨h1, h2, h3, h4, h5, h6, h7, h8⟩ := monthInitial_facts hci
  refine ⟨?_, ?_, ?_, isNoise_cons_false s h1 h2 h3 h4 h5 h6 h7⟩
  · have he : PAYMENTS_START = 'Y' :: strL "our payments" := rfl
    rw [he]
    exact startsWithL_head_ne _ _ (fun hh => h8 hh.symm)
  · have he : CHARGES_START = 'Y' :: strL "our new charges and credits" := rfl
    rw [he]
    exact startsWithL_head_ne _ _ (fun hh => h8 hh.symm)
  · have he : PAYMENTS_TOTAL_PREFIX = 'T' :: strL "otal payments $" := rfl
    rw [he]
    exact startsWithL_head_ne _ _ (fun hh => h2 hh.symm)

/- =========================
   Scanner step lemmas
   ========================= -/

/-- A payments-header line switches the scanner into the payments section. -/
theorem processLine_paymentsHeader (year : Nat) (st : ScanSt) (l : Str)
    (h : startsWithL PAYMENTS_START (normWS l) = true) :
    processLine year st l = .ok { st with inPayments := true, inCharges := false } := by
  rw [processLine]
  rw [if_pos h]

/-- A charges-header line switches the scanner into the charges section. -/
theorem processLine_chargesHeader (year : Nat) (st : ScanSt) (l : Str)
    (h0 : startsWithL PAYMENTS_START (normWS l) = false)
    (h : startsWithL CHARGES_START (normWS l) = true) :
    processLine year st l = .ok { st with inCharges := true, inPayments := false } := by
  rw [processLine]
  rw [h0, h]
  simp

/-- A payments-total line seen while in the payments section clears the
section flag. -/
theorem processLine_total (year : Nat) (st : ScanSt) (l : Str)
    (hp : st.inPayments = true)
    (h : startsWithL PAYMENTS_TOTAL_PREFIX (normWS l) = true) :
    processLine year st l = .ok { st with inPayments := false } := by
  have hcons : ∃ c s2, normWS l = c :: s2 ∧ c = 'T' := by
    cases hn : normWS l with
    | nil => rw [hn] at h; cases h
    | cons c s2 =>
      rw [hn] at h
      have he : PAYMENTS_TOTAL_PREFIX = 'T' :: strL "otal payments $" := rfl
      rw [he, startsWithL] at h
      split at h
      · next heq => exact ⟨c, s2, rfl, heq.symm⟩
      · cases h
  obtain ⟨c, s2, hn, hT⟩ := hcons
  subst hT
  have hh1 : startsWithL PAYMENTS_START (normWS l) = false := by
    rw [hn]
    have he : PAYMENTS_START = 'Y' :: strL "our payments" := rfl
    rw [he]
    exact startsWithL_head_ne _ _ (by decide)
  have hh2 : startsWithL CHARGES_START (normWS l) = false := by
    rw [hn]
    have he : CHARGES_START = 'Y' :: strL "our new charges and credits" := rfl
    rw [he]
    exact startsWithL_head_ne _ _ (by decide)
  rw [processLine]
  rw [hh1, hh2, hp, h]
  simp

/-- On a line whose normalization matches the row grammar, `processLine`
reaches the row-emission stage: the header, total and noise tests all
fail. -/
theorem processLine_row (year : Nat) (st : ScanSt) (l : Str)
    (t p b a : Str) (hrow : rowMatch (normWS l) = some (t, p, b, a)) :
    processLine year st l =
      match normalizeDate t year with
      | .error e => .error e
      | .ok tdate =>
        match normalizeDate p year with
        | .error e => .error e
        | .ok pdate =>
          if st.inPayments then
            .ok { st with payments := st.payments ++
                  [{ trans_date := tdate, post_date := pdate,
                     description := b, amount := parseAmountCents a }] }
          else if st.inCharges then
            .ok { st with txns := st.txns ++
                  [{ trans_date := tdate, post_date := pdate,
                     description := (findCategoryAndDesc b).2,
                     category := (findCategoryAndDesc b).1,
                     amount := parseAmountCents a,
                     location := (extractLocation (findCategoryAndDesc b).2).1,
                     city := (extractLocation (findCategoryAndDesc b).2).2.1,
                     province := (extractLocation (findCategoryAndDesc b).2).2.2 }] }
          else .ok st := by
  obtain ⟨c, s2, hline, hci⟩ := rowMatch_head hrow
  obtain ⟨hh1, hh2, hh3, hh4⟩ := headers_false_of_monthInitial hci s2
  rw [hline] at hrow
  rw [processLine, hline, hh1, hh2, hh3, hh4, hrow]
  simp

/-- With both section flags clear, a line that is not a section header
either fails (date error) or leaves the state unchanged — in particular
no record is emitted. -/
theorem processLine_idle (year : Nat) (st : ScanSt) (l : Str)
    (hp : st.inPayments = false) (hc : st.inCharges = false)
    (hh1 : startsWithL PAYMENTS_START (normWS l) = false)
    (hh2 : startsWithL CHARGES_START (normWS l) = false) :
    (∃ e, processLine year st l = .error e) ∨ processLine year st l = .ok st := by
  rw [processLine, hh1, hh2, hp]
  simp only [Bool.false_and, Bool.false_eq_true, if_false]
  cases hn : isNoise (normWS l) with
  | true => right; simp
  | false =>
    simp only [Bool.false_eq_true, if_false]
    cases hr : rowMatch (normWS l) with
    | none => right; rfl
    | some q =>
      obtain ⟨t, p, b, a⟩ := q
      dsimp only
      cases hd1 : normalizeDate t year with
      | error e => left; exact ⟨e, rfl⟩
      | ok d1 =>
        cases hd2 : normalizeDate p year with
        | error e => left; exact ⟨e, rfl⟩
        | ok d2 =>
          right
          simp [hp, hc]

/-- C2 part 2 induction: from an idle state, every line sequence without
section headers preserves the record lists (when it does not abort). -/
theorem processLinesE_idle (year : Nat) (st : ScanSt) (ls : List Str)
    (hp : st.inPayments = false) (hc : st.inCharges = false)
    (hh : ∀ l ∈ ls, startsWithL PAYMENTS_START (normWS l) = false ∧
          startsWithL CHARGES_START (normWS l) = false) :
    ∀ st2, processLinesE year st ls = .ok st2 →
      st2.payments = st.payments ∧ st2.txns = st.txns := by
  induction ls generalizing st with
  | nil =>
    intro st2 h
    rw [processLinesE] at h
    injection h with h
    rw [h]
    exact ⟨rfl, rfl⟩
  | cons l ls ih =>
    intro st2 h
    rw [processLinesE] at h
    obtain ⟨hh1, hh2⟩ := hh l (List.mem_cons_self l ls)
    cases processLine_idle year st l hp hc hh1 hh2 with
    | inl herr =>
      obtain ⟨e, he⟩ := herr
      rw [he] at h
      cases h
    | inr hok =>
      rw [hok] at h
      exact ih st hp hc (fun l2 hl2 => hh l2 (List.mem_cons_of_mem l hl2)) st2 h

/-- C2: a line starting with the payments-total marker seen while the
scanner is in the payments section moves the state out of it, and every
subsequent line — in particular every line matching the row grammar —
produces no record (neither payment nor transaction) until a payments or
charges header line is seen. -/
theorem c2_total_ends_payments :
    (∀ (year : Nat) (st : ScanSt) (total : Str),
        st.inPayments = true →
        startsWithL PAYMENTS_TOTAL_PREFIX (normWS total) = true →
        processLine year st total = .ok { st with inPayments := false }) ∧
    (∀ (year : Nat) (st : ScanSt) (ls : List Str),
        st.inPayments = false → st.inCharges = false →
        (∀ l ∈ ls, startsWithL PAYMENTS_START (normWS l) = false ∧
              startsWithL CHARGES_START (normWS l) = false) →
        ∀ st2, processLinesE year st ls = .ok st2 →
          st2.payments = st.payments ∧ st2.txns = st.txns) :=
  ⟨fun year st total hp h => processLine_total year st total hp h,
   fun year st ls hp hc hh => processLinesE_idle year st ls hp hc hh⟩

/-- Witness for C2: a concrete total line then a concrete row-shaped line;
the state leaves `IN_PAYMENTS` and no record is emitted. -/
theorem c2_total_ends_payments_witness :
    processLine 2024 ⟨true, false, [], []⟩ (strL "Total payments $500.00") =
      .ok ⟨false, false, [], []⟩ ∧
    ((⟨false, false, [], []⟩ : ScanSt).payments = [] ∧
      (⟨false, false, [], []⟩ : ScanSt).txns = []) := by
  constructor
  · exact c2_total_ends_payments.1 2024 ⟨true, false, [], []⟩
      (strL "Total payments $500.00") rfl (by decide)
  · exact c2_total_ends_payments.2 2024 ⟨false, false, [], []⟩
      [strL "Jan 5 Jan 6 SOMETHING 10.00"] rfl rfl
      (by intro l hl; rw [List.mem_singleton] at hl; subst hl; exact ⟨by decide, by decide⟩)
      ⟨false, false, [], []⟩ (by rfl)

/-- C9: a date token that fails to parse for any reason other than a
day out of range for its month propagates as the fatal parse error
carrying the original token; the scanner does not catch it — a matched
row whose first date token fails aborts the whole line sequence. -/
theorem c9_date_error_fatal :
    (∀ (tok : Str) (year : Nat),
        dtparseModel tok year = .error (.otherFormat tok) →
        normalizeDate tok year = .error (.otherFormat tok)) ∧
    (∀ (year : Nat) (st : ScanSt) (l t p b a : Str) (e : DateErr),
        rowMatch (normWS l) = some (t, p, b, a) →
        normalizeDate t year = .error e →
        processLine year st l = .error e) ∧
    (∀ (year : Nat) (st : ScanSt) (l : Str) (ls : List Str) (e : DateErr),
        processLine year st l = .error e →
        processLinesE year st (l :: ls) = .error e) := by
  refine ⟨?_, ?_, ?_⟩
  · intro tok year h
    rw [normalizeDate, h]
  · intro year st l t p b a e hrow herr
    rw [processLine_row year st l t p b a hrow, herr]
  · intro year st l ls e h
    rw [processLinesE, h]

/-- Witness for C9: the token `"Jan 45"` (day 45 is not a day-of-month at
all) aborts the processing of an otherwise well-formed matched row. -/
theorem c9_date_error_fatal_witness :
    normalizeDate (strL "Jan 45") 2025 = .error (.otherFormat (strL "Jan 45")) ∧
    processLinesE 2025 initScanSt [strL "Jan 45 Jan 7 STUFF 1.00"] =
      .error (.otherFormat (strL "Jan 45")) := by
  have h1 : normalizeDate (strL "Jan 45") 2025 = .error (.otherFormat (strL "Jan 45")) :=
    c9_date_error_fatal.1 (strL "Jan 45") 2025 (by rfl)
  have h2 : processLine 2025 initScanSt (strL "Jan 45 Jan 7 STUFF 1.00") =
      .error (.otherFormat (strL "Jan 45")) :=
    c9_date_error_fatal.2.1 2025 initScanSt (strL "Jan 45 Jan 7 STUFF 1.00")
      (strL "Jan 45") (strL "Jan 7") (strL "STUFF") (strL "1.00") _ (by decide) h1
  exact ⟨h1, c9_date_error_fatal.2.2 2025 initScanSt (strL "Jan 45 Jan 7 STUFF 1.00")
    [] _ h2⟩

/- =========================
   C5: category extraction
   ========================= -/

theorem findCatAux_no_match {bn : Str} {L : List Str}
    (h : ∀ c ∈ L, endsWithL c bn = false) : findCatAux bn L = ([], bn) := by
  induction L with
  | nil => rfl
  | cons x xs ih =>
    rw [findCatAux, h x (List.mem_cons_self x xs)]
    · exact ih (fun c hc => h c (List.mem_cons_of_mem x hc))

theorem findCatAux_match {bn : Str} {L : List Str} (c0 : Str)
    (hpair : List.Pairwise (fun x y => y.length ≤ x.length) L)
    (hc0 : c0 ∈ L) (hend : endsWithL c0 bn = true) :
    ∃ cat ∈ L, endsWithL cat bn = true ∧
      findCatAux bn L = (cat, rstripWS (bn.take (bn.length - cat.length))) ∧
      ∀ c ∈ L, endsWithL c bn = true → c.length ≤ cat.length := by
  induction L with
  | nil => cases hc0
  | cons x xs ih =>
    rw [List.pairwise_cons] at hpair
    by_cases hx : endsWithL x bn = true
    · refine ⟨x, List.mem_cons_self x xs, hx, ?_, ?_⟩
      · rw [findCatAux, hx]
        simp
      · intro c hc _
        cases List.mem_cons.mp hc with
        | inl h => rw [h]
        | inr h => exact hpair.1 c h
    · have hxf : endsWithL x bn = false := by
        cases hxv : endsWithL x bn with
        | true => exact absurd hxv hx
        | false => rfl
      have hc0xs : c0 ∈ xs := by
        cases List.mem_cons.mp hc0 with
        | inl h => rw [h] at hend; exact absurd hend hx
        | inr h => exact h
      obtain ⟨cat, hcat, hce, hres, hmax⟩ := ih hpair.2 hc0xs
      refine ⟨cat, List.mem_cons_of_mem x hcat, hce, ?_, ?_⟩
      · rw [findCatAux, hxf]
        · simpa using hres
      · intro c hc hcend
        cases List.mem_cons.mp hc with
        | inl h => rw [h] at hcend; exact absurd hcend hx
        | inr h => exact hmax c h hcend

theorem sorted_categories_pairwise :
    List.Pairwise (fun x y : Str => y.length ≤ x.length)
      (sortByLenDesc KNOWN_CATEGORIES) := by decide

theorem mem_sorted_categories_iff (m : Str) :
    m ∈ sortByLenDesc KNOWN_CATEGORIES ↔ m ∈ KNOWN_CATEGORIES := by
  have he : sortByLenDesc KNOWN_CATEGORIES =
      [ strL "Professional and Financial Services",
        strL "Hotel, Entertainment and Recreation",
        strL "Personal and Household Expenses",
        strL "Foreign Currency Transactions",
        strL "Health and Education",
        strL "Retail and Grocery",
        strL "Other Transactions",
        strL "Transportation",
        strL "Restaurants" ] := by decide
  rw [he, KNOWN_CATEGORIES]
  simp only [List.mem_cons, List.not_mem_nil, or_false]
  tauto

/-- C5 counterexample: at the body `"A  B"` (two inner spaces), no known
label matches, yet extraction returns the whitespace-normalized body
`"A B"`, not the untouched body — so the claim's "untouched body" is
false as stated. -/
theorem c5_counterexample :
    (KNOWN_CATEGORIES.all (fun cat => !(endsWithL cat (normWS (strL "A  B"))))) = true ∧
    findCategoryAndDesc (strL "A  B") = ([], strL "A B") ∧
    ¬((findCategoryAndDesc (strL "A  B")).2 = strL "A  B") := by decide

/-- C5 (amended): category extraction tests the known labels
longest-first on the whitespace-normalized body; if the normalized body
ends with a known label it returns a longest such label together with the
normalized body with that label stripped and right-trimmed, and if no
label matches it returns an empty category together with the
whitespace-NORMALIZED body. -/
theorem c5_category_extraction (body : Str) :
    ((∀ c ∈ KNOWN_CATEGORIES, endsWithL c (normWS body) = false) →
      findCategoryAndDesc body = ([], normWS body)) ∧
    (∀ c0 ∈ KNOWN_CATEGORIES, endsWithL c0 (normWS body) = true →
      ∃ cat ∈ KNOWN_CATEGORIES, endsWithL cat (normWS body) = true ∧
        findCategoryAndDesc body =
          (cat, rstripWS ((normWS body).take ((normWS body).length - cat.length))) ∧
        ∀ c ∈ KNOWN_CATEGORIES, endsWithL c (normWS body) = true →
          c.length ≤ cat.length) := by
  constructor
  · intro h
    rw [findCategoryAndDesc]
    exact findCatAux_no_match
      (fun c hc => h c ((mem_sorted_categories_iff c).mp hc))
  · intro c0 hc0 hend
    obtain ⟨cat, hcat, hce, hres, hmax⟩ :=
      findCatAux_match c0 sorted_categories_pairwise
        ((mem_sorted_categories_iff c0).mpr hc0) hend
    exact ⟨cat, (mem_sorted_categories_iff cat).mp hcat, hce, hres,
      fun c hc hcend => hmax c ((mem_sorted_categories_iff c).mpr hc) hcend⟩

/-- Witness for C5 at concrete bodies with and without a trailing label. -/
theorem c5_category_extraction_witness :
    findCategoryAndDesc (strL "PAYMENT THANK YOU") = ([], strL "PAYMENT THANK YOU") ∧
    ∃ cat ∈ KNOWN_CATEGORIES,
      endsWithL cat (normWS (strL "TIM HORTONS OTTAWA ON Retail and Grocery")) = true ∧
      findCategoryAndDesc (strL "TIM HORTONS OTTAWA ON Retail and Grocery") =
        (cat, rstripWS ((normWS (strL "TIM HORTONS OTTAWA ON Retail and Grocery")).take
          ((normWS (strL "TIM HORTONS OTTAWA ON Retail and Grocery")).length - cat.length))) ∧
      ∀ c ∈ KNOWN_CATEGORIES,
        endsWithL c (normWS (strL "TIM HORTONS OTTAWA ON Retail and Grocery")) = true →
        c.length ≤ cat.length := by
  constructor
  · exact (c5_category_extraction (strL "PAYMENT THANK YOU")).1 (by decide)
  · exact (c5_category_extraction (strL "TIM HORTONS OTTAWA ON Retail and Grocery")).2
      (strL "Retail and Grocery") (by decide) (by decide)

/- =========================
   C6 / C7 / C8 / C10: location inference
   ========================= -/

/-- C6: when none of the four ordered province-detection strategies finds
a trailing province code, location extraction returns the empty triple;
in particular `"WWW.AMAZON.CA"` yields empty province, city and
location. -/
theorem c6_no_province :
    (∀ desc : Str, detectProvinceSuffix (stripWS (upperStr desc)) = none →
        extractLocation desc = ([], [], [])) ∧
    detectProvinceSuffix (stripWS (upperStr (strL "WWW.AMAZON.CA"))) = none ∧
    extractLocation (strL "WWW.AMAZON.CA") = ([], [], []) := by
  refine ⟨?_, by decide, by decide⟩
  intro desc h
  rw [extractLocation, h]

/-- Witness for C6, applying the universal part at `"WWW.AMAZON.CA"`. -/
theorem c6_no_province_witness :
    extractLocation (strL "WWW.AMAZON.CA") = ([], [], []) :=
  c6_no_province.1 (strL "WWW.AMAZON.CA") (by decide)

/-- C7 counterexample: `"UBER.COM TORONTOON"` is detected by the
domain/brand-tail strategy (mode `"domain"`), yet the extraction result
carries city `"Toronto"` — the gazetteer rescue scan still runs in domain
mode, so the result is not province-only as the claim states. -/
theorem c7_counterexample :
    detectProvinceSuffix (stripWS (upperStr (strL "UBER.COM TORONTOON"))) =
      some (16, strL "ON", MODE_DOMAIN) ∧
    extractLocation (strL "UBER.COM TORONTOON") =
      (strL "Toronto ON", strL "Toronto", strL "ON") ∧
    ¬((extractLocation (strL "UBER.COM TORONTOON")).2.1 = []) := by decide

theorem halifax_mem_sorted : strL "HALIFAX" ∈ CITY_PATTERNS_SORTED := by decide

/-- C7 (amended): in domain mode the last-token city heuristic is
suppressed; if additionally no gazetteer city occurs in the alphabetic
tail, the result is province-only (empty city and location). -/
theorem c7_domain_mode (desc : Str) (start : Nat) (prov : Str)
    (hdet : detectProvinceSuffix (stripWS (upperStr desc)) =
      some (start, prov, MODE_DOMAIN))
    (hcity : ∀ pat ∈ CITY_PATTERNS_SORTED,
        containsSub pat (locTailAlpha (stripWS (upperStr desc)) start) = false) :
    extractLocation desc = ([], [], prov) := by
  have hfind : CITY_PATTERNS_SORTED.find?
      (fun pat => containsSub pat (locTailAlpha (stripWS (upperStr desc)) start)) =
      none := by
    rw [List.find?_eq_none]
    intro pat hpat
    rw [hcity pat hpat]
    simp
  have hhal : containsSub (strL "HALIFAX")
      (locTailAlpha (stripWS (upperStr desc)) start) = false :=
    hcity (strL "HALIFAX") halifax_mem_sorted
  have hc0 : locCand0 (locTailAlpha (stripWS (upperStr desc)) start) MODE_DOMAIN = [] := by
    rw [locCand0, if_pos rfl]
  have hc1 : locCand1 (locTailAlpha (stripWS (upperStr desc)) start) MODE_DOMAIN = [] := by
    rw [locCand1]
    rw [hc0, hfind]
    simp
  have hcand : locCand (stripWS (upperStr desc)) start prov MODE_DOMAIN = [] := by
    rw [locCand]
    rw [hc1, hhal]
    simp
  rw [extractLocation, hdet]
  dsimp only
  rw [hcand]
  simp

/-- Witness for C7 at `"UBER.COMON"`: domain mode, no gazetteer city in
the tail, province-only result. -/
theorem c7_domain_mode_witness :
    extractLocation (strL "UBER.COMON") = ([], [], strL "ON") :=
  c7_domain_mode (strL "UBER.COMON") 8 (strL "ON") (by decide) (by decide)

/-- C8: the hyphen-glued strategy's regex requires the hyphen immediately
before the two-letter code, so `"-HNS"` never matches; on
`"IC* INSTACART MID-HNS"` no strategy fires and the result is the empty
triple — not the province `"NS"` / city `"Halifax"` the claim (and the
source's own docstrings, lines 157-158 and 203) promise. -/
theorem c8_instacart_halifax_bug :
    detectProvinceSuffix (stripWS (upperStr (strL "IC* INSTACART MID-HNS"))) = none ∧
    extractLocation (strL "IC* INSTACART MID-HNS") = ([], [], []) := by decide

/- ===== C10: the location field invariant ===== -/

def hasNonWS (s : Str) : Bool := s.any (fun c => !(isWSChar c))

theorem splitWSAux_eq_nil {s acc : Str} (h : splitWSAux s acc = []) :
    acc = [] ∧ s.all isWSChar = true := by
  induction s generalizing acc with
  | nil =>
    rw [splitWSAux] at h
    split at h
    · next ha => exact ⟨List.isEmpty_iff.mp ha, rfl⟩
    · cases h
  | cons c cs ih =>
    rw [splitWSAux] at h
    split at h
    · next hws =>
      split at h
      · next ha =>
        obtain ⟨_, hall⟩ := ih h
        exact ⟨List.isEmpty_iff.mp ha, by rw [List.all_cons, hws, hall]; rfl⟩
      · cases h
    · obtain ⟨hacc, _⟩ := ih h
      cases hacc

theorem splitWS_ne_nil {s : Str} (h : hasNonWS s = true) : splitWS s ≠ [] := by
  intro hnil
  obtain ⟨_, hall⟩ := splitWSAux_eq_nil hnil
  rw [hasNonWS, List.any_eq_true] at h
  obtain ⟨c, hc, hcw⟩ := h
  rw [List.all_eq_true] at hall
  have := hall c hc
  rw [this] at hcw
  cases hcw

theorem splitWSAux_tokens {s acc : Str} (hacc : acc.all (fun c => !(isWSChar c)) = true) :
    ∀ w ∈ splitWSAux s acc, w ≠ [] ∧ w.all (fun c => !(isWSChar c)) = true := by
  induction s generalizing acc with
  | nil =>
    intro w hw
    rw [splitWSAux] at hw
    split at hw
    · cases hw
    · next ha =>
      rw [List.mem_singleton] at hw
      subst hw
      constructor
      · intro hrev
        rw [List.reverse_eq_nil_iff] at hrev
        rw [hrev] at ha
        simp at ha
      · rw [List.all_reverse]
        exact hacc
  | cons c cs ih =>
    intro w hw
    rw [splitWSAux] at hw
    split at hw
    · next hws =>
      split at hw
      · exact ih (by rfl) w hw
      · next ha =>
        cases List.mem_cons.mp hw with
        | inl h =>
          subst h
          constructor
          · intro hrev
            rw [List.reverse_eq_nil_iff] at hrev
            rw [hrev] at ha
            simp at ha
          · rw [List.all_reverse]
            exact hacc
        | inr h => exact ih (by rfl) w h
    · next hws =>
      refine ih ?_ w hw
      rw [List.all_cons, hacc]
      have : isWSChar c = false := by
        cases hv : isWSChar c with
        | false => rfl
        | true => exact absurd hv hws
      rw [this]
      rfl

theorem splitWS_tokens {s : Str} :
    ∀ w ∈ splitWS s, w ≠ [] ∧ w.all (fun c => !(isWSChar c)) = true :=
  splitWSAux_tokens (by rfl)

theorem joinSpace_ne_nil {l : List Str} (hl : l ≠ []) (hw : ∀ w ∈ l, w ≠ []) :
    joinSpace l ≠ [] := by
  match l with
  | [] => exact absurd rfl hl
  | [w] => exact hw w (List.mem_singleton.mpr rfl)
  | w :: w2 :: ws =>
    rw [joinSpace]
    · cases w with
      | nil => simp
      | cons c cs => simp
    · intro hh
      cases hh

theorem capitalizeWord_ne_nil {w : Str} (h : w ≠ []) : capitalizeWord w ≠ [] := by
  cases w with
  | nil => exact absurd rfl h
  | cons c cs => simp [capitalizeWord]

theorem normWS_hasNonWS {s : Str} (h : hasNonWS s = true) : hasNonWS (normWS s) = true := by
  rw [normWS]
  cases hsp : splitWS s with
  | nil => exact absurd hsp (splitWS_ne_nil h)
  | cons w ws =>
    obtain ⟨hwne, hwall⟩ := splitWS_tokens w (by rw [hsp]; exact List.mem_cons_self w ws)
    cases w with
    | nil => exact absurd rfl hwne
    | cons c cs =>
      rw [List.all_cons, Bool.and_eq_true] at hwall
      cases ws with
      | nil =>
        rw [joinSpace, hasNonWS, List.any_cons, hwall.1]
        rfl
      | cons w2 ws2 =>
        rw [joinSpace]
        · rw [hasNonWS, List.cons_append, List.any_cons, hwall.1]
          rfl
        · intro hh
          cases hh

theorem normalizeCity_ne_nil {s : Str} (h : hasNonWS s = true) : normalizeCity s ≠ [] := by
  rw [normalizeCity]
  have h2 : hasNonWS (normWS s) = true := normWS_hasNonWS h
  cases hsp : splitWS (normWS s) with
  | nil => exact absurd hsp (splitWS_ne_nil h2)
  | cons u us =>
    apply joinSpace_ne_nil
    · simp
    · intro w hw
      rw [List.mem_map] at hw
      obtain ⟨u0, hu0, rfl⟩ := hw
      refine capitalizeWord_ne_nil ?_
      exact (splitWS_tokens (s := normWS s) u0 (by rw [hsp]; exact hu0)).1

theorem upper_not_ws {c : Char} (h : isUpperAZ c = true) : isWSChar c = false := by
  rw [isUpperAZ] at h
  rw [Bool.and_eq_true, decide_eq_true_eq, decide_eq_true_eq] at h
  rw [isWSChar]
  have h11 : c ≠ Char.ofNat 11 := by
    intro hc; rw [hc] at h; simp [Char.ofNat] at h
  have h12 : c ≠ Char.ofNat 12 := by
    intro hc; rw [hc] at h; simp [Char.ofNat] at h
  have hsp : c ≠ ' ' := by intro hc; rw [hc] at h; simp at h
  have hta : c ≠ '\t' := by intro hc; rw [hc] at h; simp at h
  have hnl : c ≠ '\n' := by intro hc; rw [hc] at h; simp at h
  have hcr : c ≠ '\r' := by intro hc; rw [hc] at h; simp at h
  simp [hsp, hta, hnl, hcr, h11, h12]

theorem allUpperMatch_hasNonWS {s : Str} (h : allUpperMatch s = true) :
    hasNonWS s = true := by
  rw [allUpperMatch, Bool.and_eq_true] at h
  obtain ⟨hne, hall⟩ := h
  cases s with
  | nil => simp at hne
  | cons c cs =>
    rw [List.all_cons, Bool.and_eq_true] at hall
    rw [hasNonWS, List.any_cons, upper_not_ws hall.1]
    rfl

theorem sorted_cities_hasNonWS : ∀ pat ∈ CITY_PATTERNS_SORTED, hasNonWS pat = true := by
  decide

theorem pickLastTok_cases (lastTok : Str) :
    pickLastTok lastTok = [] ∨ hasNonWS (pickLastTok lastTok) = true := by
  rw [pickLastTok]
  split
  · next hguard =>
    rw [Bool.and_eq_true] at hguard
    split
    · exact Or.inl rfl
    · cases hf : (CITY_PATTERNS_SORTED.zip CITY_PATTERNS_NOSPACE).find?
          (fun pq => endsWithL pq.2 lastTok || containsSub pq.1 lastTok) with
      | some pq =>
        right
        have hm := List.mem_of_find?_eq_some hf
        have hm1 : pq.1 ∈ CITY_PATTERNS_SORTED := by
          obtain ⟨a, b⟩ := pq
          exact (List.of_mem_zip hm).1
        exact sorted_cities_hasNonWS pq.1 hm1
      | none => exact Or.inr (allUpperMatch_hasNonWS hguard.2)
  · exact Or.inl rfl

theorem pickCityFromTokens_cases (toks : List Str) :
    pickCityFromTokens toks = [] ∨ hasNonWS (pickCityFromTokens toks) = true := by
  rw [pickCityFromTokens]
  cases toks.reverse with
  | nil => exact Or.inl rfl
  | cons lastTok rest =>
    cases rest with
    | nil => exact pickLastTok_cases lastTok
    | cons prev rest2 =>
      dsimp only
      split
      · next hguard =>
        rw [Bool.and_eq_true] at hguard
        right
        have hp := allUpperMatch_hasNonWS hguard.2
        rw [hasNonWS, List.any_eq_true] at hp ⊢
        obtain ⟨c, hc, hcw⟩ := hp
        exact ⟨c, List.mem_append_left _ hc, hcw⟩
      · exact pickLastTok_cases lastTok

theorem locCand0_cases (tailAlpha mode : Str) :
    locCand0 tailAlpha mode = [] ∨ hasNonWS (locCand0 tailAlpha mode) = true := by
  rw [locCand0]
  split
  · exact Or.inl rfl
  · exact pickCityFromTokens_cases _

theorem locCand1_cases (tailAlpha mode : Str) :
    locCand1 tailAlpha mode = [] ∨ hasNonWS (locCand1 tailAlpha mode) = true := by
  rw [locCand1]
  split
  · split
    · next pat heq =>
      exact Or.inr (sorted_cities_hasNonWS pat (List.mem_of_find?_eq_some heq))
    · exact locCand0_cases tailAlpha mode
  · exact locCand0_cases tailAlpha mode

theorem locCand_cases (U : Str) (start : Nat) (prov mode : Str) :
    locCand U start prov mode = [] ∨ hasNonWS (locCand U start prov mode) = true := by
  rw [locCand]
  split
  · exact Or.inr (by decide)
  · exact locCand1_cases _ _

/-- C10: the triple returned by location extraction — and hence the
fields of every emitted transaction — satisfies: a nonempty city makes
the location exactly `city ++ " " ++ province`, and an empty city forces
an empty location, even when a province was detected. -/
theorem c10_location_invariant (desc : Str) :
    ((extractLocation desc).2.1 ≠ [] →
      (extractLocation desc).1 =
        (extractLocation desc).2.1 ++ ' ' :: (extractLocation desc).2.2) ∧
    ((extractLocation desc).2.1 = [] → (extractLocation desc).1 = []) := by
  rw [extractLocation]
  cases hdet : detectProvinceSuffix (stripWS (upperStr desc)) with
  | none => exact ⟨fun h => absurd rfl h, fun _ => rfl⟩
  | some triple =>
    obtain ⟨start, prov, mode⟩ := triple
    dsimp only
    split
    · next hguard =>
      rw [Bool.and_eq_true, Bool.not_eq_eq_eq_not, Bool.not_true] at hguard
      have hcand : locCand (stripWS (upperStr desc)) start prov mode ≠ [] := by
        intro hnil
        rw [hnil] at hguard
        simp at hguard
      have hnws : hasNonWS (locCand (stripWS (upperStr desc)) start prov mode) = true :=
        (locCand_cases _ _ _ _).resolve_left hcand
      have hcity := normalizeCity_ne_nil hnws
      exact ⟨fun _ => rfl, fun h => absurd h hcity⟩
    · exact ⟨fun h => absurd rfl h, fun _ => rfl⟩

/-- Witness for C10 at a city-bearing and a province-only input. -/
theorem c10_location_invariant_witness :
    (extractLocation (strL "TIM HORTONS OTTAWA ON")).1 =
      (extractLocation (strL "TIM HORTONS OTTAWA ON")).2.1 ++ ' ' ::
        (extractLocation (strL "TIM HORTONS OTTAWA ON")).2.2 ∧
    (extractLocation (strL "UBER.COMON")).1 = [] :=
  ⟨(c10_location_invariant (strL "TIM HORTONS OTTAWA ON")).1 (by decide),
   (c10_location_invariant (strL "UBER.COMON")).2 (by decide)⟩

/- =========================
   C1: two-page end-to-end assembly
   ========================= -/

theorem splitlinesAux_append_nl {a : Str} (rest acc : Str)
    (ha : a.all (fun c => !(isLB c)) = true) :
    splitlinesAux (a ++ '\n' :: rest) acc =
      (acc.reverse ++ a) :: splitlinesAux rest [] := by
  induction a generalizing acc with
  | nil =>
    rw [List.nil_append, splitlinesAux.eq_def]
    dsimp only
    rw [if_neg (by decide)]
    rw [if_pos (by decide)]
    simp
  | cons c a2 ih =>
    rw [List.all_cons, Bool.and_eq_true] at ha
    have hlb : isLB c = false := by
      have := ha.1
      cases hv : isLB c with
      | false => rfl
      | true => rw [hv] at this; cases this
    have hcr : ¬(c = '\r') := by
      intro h
      rw [h] at hlb
      cases hlb
    rw [List.cons_append, splitlinesAux.eq_def]
    dsimp only
    rw [if_neg hcr, hlb]
    simp only [Bool.false_eq_true, if_false]
    rw [ih _ ha.2]
    simp

theorem splitlinesAux_nolb {a : Str} (acc : Str)
    (ha : a.all (fun c => !(isLB c)) = true) :
    splitlinesAux a acc =
      if (acc.reverse ++ a).isEmpty then [] else [acc.reverse ++ a] := by
  induction a generalizing acc with
  | nil =>
    rw [splitlinesAux.eq_def]
    dsimp only
    simp
  | cons c a2 ih =>
    rw [List.all_cons, Bool.and_eq_true] at ha
    have hlb : isLB c = false := by
      have := ha.1
      cases hv : isLB c with
      | false => rfl
      | true => rw [hv] at this; cases this
    have hcr : ¬(c = '\r') := by
      intro h
      rw [h] at hlb
      cases hlb
    rw [splitlinesAux.eq_def]
    dsimp only
    rw [if_neg hcr, hlb]
    simp only [Bool.false_eq_true, if_false]
    rw [ih _ ha.2]
    have he : (c :: acc).reverse ++ a2 = acc.reverse ++ c :: a2 := by simp
    rw [he]

/-- The first page of the C1 statement: the payments header, one line,
and the payments-total line. -/
def c1Page1 (l1 : Str) : Str :=
  strL "Your payments" ++ '\n' :: (l1 ++ '\n' :: strL "Total payments $100.00")

/-- The second page of the C1 statement: the charges header and one line. -/
def c1Page2 (l2 : Str) : Str :=
  strL "Your new charges and credits" ++ '\n' :: l2

theorem c1Page1_lines (l1 : Str) (hl1 : l1.all (fun c => !(isLB c)) = true) :
    splitlines (c1Page1 l1) =
      [strL "Your payments", l1, strL "Total payments $100.00"] := by
  rw [c1Page1, splitlines, splitlinesAux_append_nl _ _ (by decide),
    splitlinesAux_append_nl _ _ hl1, splitlinesAux_nolb _ (by decide)]
  simp only [List.reverse_nil, List.nil_append]
  rw [ne_nil_isEmpty_false (by decide : ¬(strL "Total payments $100.00" = []))]
  simp

theorem c1Page2_lines (l2 : Str) (hl2 : l2.all (fun c => !(isLB c)) = true)
    (hne : ¬(l2 = [])) :
    splitlines (c1Page2 l2) = [strL "Your new charges and credits", l2] := by
  rw [c1Page2, splitlines, splitlinesAux_append_nl _ _ (by decide),
    splitlinesAux_nolb _ hl2]
  simp only [List.reverse_nil, List.nil_append]
  rw [ne_nil_isEmpty_false hne]
  simp

/-- C1: for a two-page statement whose first page holds the payments
header, one line matching the row grammar, and the payments-total line,
and whose second page holds the charges header and one row-grammar line
whose body ends with a known category label and contains a detectable
city and province, the assembler returns exactly one payment record and
exactly one transaction record, the transaction's category and location
fields separated from its description; the section state carries over
the page boundary of the fold. -/
theorem c1_two_page_assembly
    (nowYear year : Nat) (l1 l2 t1 p1 b1 a1 t2 p2 b2 a2 cat desc loc city prov : Str)
    (d1 d2 d3 d4 : NDate)
    (hl1 : l1.all (fun c => !(isLB c)) = true)
    (hl2 : l2.all (fun c => !(isLB c)) = true)
    (h1 : rowMatch (normWS l1) = some (t1, p1, b1, a1))
    (h2 : rowMatch (normWS l2) = some (t2, p2, b2, a2))
    (hy : extractYear nowYear [c1Page1 l1, c1Page2 l2] = year)
    (hd1 : normalizeDate t1 year = .ok d1) (hd2 : normalizeDate p1 year = .ok d2)
    (hd3 : normalizeDate t2 year = .ok d3) (hd4 : normalizeDate p2 year = .ok d4)
    (hcd : findCategoryAndDesc b2 = (cat, desc)) (_hcat : ¬(cat = []))
    (hloc : extractLocation desc = (loc, city, prov))
    (_hprov : ¬(prov = [])) (_hcity : ¬(city = [])) :
    parsePagesText nowYear [c1Page1 l1, c1Page2 l2] =
      .ok ([⟨d1, d2, b1, parseAmountCents a1, strL "CIBC"⟩],
           [⟨d3, d4, desc, cat, parseAmountCents a2, loc, city, prov, strL "CIBC"⟩]) := by
  have hne2 : ¬(l2 = []) := by
    intro h
    rw [h] at h2
    rw [(by decide : rowMatch (normWS ([] : Str)) = none)] at h2
    cases h2
  have s1 : processLine year initScanSt (strL "Your payments") =
      .ok ⟨true, false, [], []⟩ :=
    processLine_paymentsHeader year initScanSt _ (by decide)
  have s2 : processLine year ⟨true, false, [], []⟩ l1 =
      .ok ⟨true, false, [⟨d1, d2, b1, parseAmountCents a1, strL "CIBC"⟩], []⟩ := by
    rw [processLine_row year _ l1 t1 p1 b1 a1 h1, hd1, hd2]
    simp
  have s3 : processLine year
      ⟨true, false, [⟨d1, d2, b1, parseAmountCents a1, strL "CIBC"⟩], []⟩
      (strL "Total payments $100.00") =
      .ok ⟨false, false, [⟨d1, d2, b1, parseAmountCents a1, strL "CIBC"⟩], []⟩ :=
    processLine_total year _ _ rfl (by decide)
  have s4 : processLine year
      ⟨false, false, [⟨d1, d2, b1, parseAmountCents a1, strL "CIBC"⟩], []⟩
      (strL "Your new charges and credits") =
      .ok ⟨false, true, [⟨d1, d2, b1, parseAmountCents a1, strL "CIBC"⟩], []⟩ :=
    processLine_chargesHeader year _ _ (by decide) (by decide)
  have s5 : processLine year
      ⟨false, true, [⟨d1, d2, b1, parseAmountCents a1, strL "CIBC"⟩], []⟩ l2 =
      .ok ⟨false, true, [⟨d1, d2, b1, parseAmountCents a1, strL "CIBC"⟩],
        [⟨d3, d4, desc, cat, parseAmountCents a2, loc, city, prov, strL "CIBC"⟩]⟩ := by
    rw [processLine_row year _ l2 t2 p2 b2 a2 h2, hd3, hd4]
    dsimp only
    rw [hcd]
    dsimp only
    rw [hloc]
    simp
  have hlines1 : processLinesE year initScanSt (splitlines (c1Page1 l1)) =
      .ok ⟨false, false, [⟨d1, d2, b1, parseAmountCents a1, strL "CIBC"⟩], []⟩ := by
    rw [c1Page1_lines l1 hl1]
    rw [processLinesE, s1]
    dsimp only
    rw [processLinesE, s2]
    dsimp only
    rw [processLinesE, s3]
    dsimp only
    rw [processLinesE]
  have hlines2 : processLinesE year
      ⟨false, false, [⟨d1, d2, b1, parseAmountCents a1, strL "CIBC"⟩], []⟩
      (splitlines (c1Page2 l2)) =
      .ok ⟨false, true, [⟨d1, d2, b1, parseAmountCents a1, strL "CIBC"⟩],
        [⟨d3, d4, desc, cat, parseAmountCents a2, loc, city, prov, strL "CIBC"⟩]⟩ := by
    rw [c1Page2_lines l2 hl2 hne2]
    rw [processLinesE, s4]
    dsimp only
    rw [processLinesE, s5]
    dsimp only
    rw [processLinesE]
  rw [parsePagesText]
  rw [hy]
  rw [processPagesE, hlines1]
  dsimp only
  rw [processPagesE, hlines2]
  dsimp only
  rw [processPagesE]

/-- Witness for C1: a concrete two-page statement yields exactly one
payment and one transaction with separated category and location. -/
theorem c1_two_page_assembly_witness :
    parsePagesText 2024
      [c1Page1 (strL "Jan 5 Jan 6 PAYMENT THANK YOU -100.00"),
       c1Page2 (strL "Jan 5 Jan 7 TIM HORTONS OTTAWA ON Retail and Grocery 12.34")] =
      .ok ([⟨⟨2024, 1, 5⟩, ⟨2024, 1, 6⟩, strL "PAYMENT THANK YOU",
              parseAmountCents (strL "-100.00"), strL "CIBC"⟩],
           [⟨⟨2024, 1, 5⟩, ⟨2024, 1, 7⟩, strL "TIM HORTONS OTTAWA ON",
              strL "Retail and Grocery", parseAmountCents (strL "12.34"),
              strL "Ottawa ON", strL "Ottawa", strL "ON", strL "CIBC"⟩]) :=
  c1_two_page_assembly 2024 2024
    (strL "Jan 5 Jan 6 PAYMENT THANK YOU -100.00")
    (strL "Jan 5 Jan 7 TIM HORTONS OTTAWA ON Retail and Grocery 12.34")
    (strL "Jan 5") (strL "Jan 6") (strL "PAYMENT THANK YOU") (strL "-100.00")
    (strL "Jan 5") (strL "Jan 7") (strL "TIM HORTONS OTTAWA ON Retail and Grocery")
    (strL "12.34")
    (strL "Retail and Grocery") (strL "TIM HORTONS OTTAWA ON")
    (strL "Ottawa ON") (strL "Ottawa") (strL "ON")
    ⟨2024, 1, 5⟩ ⟨2024, 1, 6⟩ ⟨2024, 1, 5⟩ ⟨2024, 1, 7⟩
    (by decide) (by decide) (by decide) (by decide) (by rfl)
    (by rfl) (by rfl) (by rfl) (by rfl)
    (by decide) (by decide) (by decide) (by decide) (by decide)
